import Mathlib

/-! sumoson: the property-listing extractors of `parser/parser.go`

A shallow embedding of the Go package `parser` and the properties of its
extractors.

Conventions of the embedding

* A Go `string` is a list of Unicode code points (`Str`); the texts handled by
  the package come from a parsed HTML document or a serialised URL and are
  valid UTF-8, on which the byte-wise library routines used here agree with
  their code-point reading.
* A Go call has three outcomes: it returns a value with a nil error, it
  returns a non-nil error, or it faults at run time (an index out of range).
  `GoResult` keeps the three apart.
* Go's `int` is the 64-bit two's-complement integer: an `Int` wrapped by
  `wrapInt64` after each arithmetic operation.
* The library routines the package calls (`strings`, `regexp`, `strconv.Atoi`,
  `strconv.ParseFloat`, `time.Parse`) are embedded for the arguments the
  package passes to them. `goquery` queries are represented by the text they
  return. The fetch of the document and `Time.String`, whose result depends on
  the host's time-zone database, are fields of the environment `Env`; `Env`
  also carries `ParseFloat`, which the statements on the value of an area fix
  to the embedded `strconv.ParseFloat`.
-/

namespace Sumoson

/-- A Go string, as its sequence of code points. -/
abbrev Str := List Char

/-! ## Errors and outcomes -/

/-- The error values the package can return, by the place that builds them. -/
inductive GoError where
  /-- error of `goquery.NewDocument` -/
  | fetch (msg : Str)
  /-- Error `fmt.Errorf("<label> not Found %v", s)` of a label-keyed extractor -/
  | notFound (label : Str)
  /-- Error `fmt.Errorf("物件詳細情報 Table not Found %v", u.RawQuery)` -/
  | tableNotFound (rawQuery : Str)
  /-- Error `fmt.Errorf("priceString is not suffix 万円 %v", priceString)` -/
  | priceSuffix (priceString : Str)
  /-- Error `fmt.Errorf("RawPath is not much %v", u.RawPath)` -/
  | rawPath (rawPath : Str)
  /-- Error `*strconv.NumError` of `Atoi` (syntax or range) -/
  | atoi (s : Str)
  /-- Error `*strconv.NumError` of `ParseFloat` -/
  | parseFloat (s : Str)
  /-- Error `*time.ParseError` -/
  | timeParse (value : Str)
  deriving DecidableEq, Repr

deriving instance DecidableEq for Except

/-- Outcome of a Go call of result type `(α, error)`. -/
inductive GoResult (α : Type) where
  /-- the call returns `(v, nil)` -/
  | ok (v : α)
  /-- the call returns the zero value and a non-nil error -/
  | error (e : GoError)
  /-- the call does not return: run-time fault -/
  | panic
  deriving DecidableEq, Repr

/-- Sequencing of `v, err := f(); if err != nil { return nil, err }`. -/
def GoResult.bind {α β : Type} (r : GoResult α) (f : α → GoResult β) : GoResult β :=
  match r with
  | .ok v => f v
  | .error e => .error e
  | .panic => .panic

/-- The call returned a non-nil error. -/
def GoResult.isError {α : Type} : GoResult α → Bool
  | .error _ => true
  | _ => false

/-- The call returned with a nil error. -/
def GoResult.isOk {α : Type} : GoResult α → Bool
  | .ok _ => true
  | _ => false

/-- A library result `(v, err)` seen as an outcome. -/
def GoResult.ofExcept {α : Type} : Except GoError α → GoResult α
  | .ok v => .ok v
  | .error e => .error e

/-! ## package `strings` -/

/-- Go `unicode.IsSpace`: the code points with the White_Space property. -/
def isSpace (c : Char) : Bool :=
  let n := c.toNat
  (9 ≤ n && n ≤ 13) || n == 32 || n == 0x85 || n == 0xA0 || n == 0x1680 ||
  (0x2000 ≤ n && n ≤ 0x200A) || n == 0x2028 || n == 0x2029 || n == 0x202F ||
  n == 0x205F || n == 0x3000

/-- Removal of the trailing elements satisfying `p`. -/
def trimRightFunc (p : Char → Bool) : Str → Str
  | [] => []
  | c :: cs =>
    match trimRightFunc p cs with
    | [] => if p c then [] else [c]
    | r => c :: r

/-- Removal of the leading elements satisfying `p`. -/
def trimLeftFunc (p : Char → Bool) : Str → Str
  | [] => []
  | c :: cs => if p c then trimLeftFunc p cs else c :: cs

/-- Go `strings.TrimSpace`. -/
def TrimSpace (s : Str) : Str :=
  trimRightFunc isSpace (trimLeftFunc isSpace s)

/-- Go `strings.Trim(s, cutset)`: all leading and trailing code points of `s`
that occur in `cutset` are removed. -/
def Trim (s cutset : Str) : Str :=
  trimRightFunc (fun c => cutset.contains c) (trimLeftFunc (fun c => cutset.contains c) s)

/-! ## package `regexp`

The patterns of the package are sequences of literal characters, greedy
stars over a one-character class (at most one of them the capture group) and the
end-of-text assertion. They are run by a backtracking matcher with the
leftmost-first rule of the `regexp` package. -/

/-- One-character classes. -/
inductive Cls where
  /-- Pattern `.` without the `s` flag: any character but a newline -/
  | dot
  /-- Pattern `[0-9]` -/
  | digit
  deriving DecidableEq, Repr

/-- Membership of a character in a class. -/
def Cls.test : Cls → Char → Bool
  | .dot, c => c != '\n'
  | .digit, c => 48 ≤ c.toNat && c.toNat ≤ 57

/-- Pattern items. -/
inductive Item where
  /-- a literal character -/
  | lit (c : Char)
  /-- Pattern `k*`, greedy; `cap` says that the star is the capture group `(k*)` -/
  | star (k : Cls) (cap : Bool)
  /-- Pattern `$` without the `m` flag: end of text -/
  | eot
  deriving DecidableEq, Repr

/-- A pattern. -/
abbrev Pattern := List Item

/-- Greedy iteration: the longest run of `p` after which the continuation `k`
matches. Returns the run and the continuation's result. -/
def matchStar {ρ : Type} (p : Char → Bool) (k : Str → Option ρ) : Str → Option (Str × ρ)
  | [] => (k []).map fun r => ([], r)
  | c :: cs =>
    if p c then
      match matchStar p k cs with
      | some (a, r) => some (c :: a, r)
      | none => (k (c :: cs)).map fun r => ([], r)
    else (k (c :: cs)).map fun r => ([], r)

/-- Match of a pattern at the start of the text: the matched text and the text
of the capture group. -/
def matchHere : Pattern → Str → Option (Str × Option Str)
  | [], _ => some ([], none)
  | .lit c :: pat, s =>
    match s with
    | [] => none
    | d :: s' => if d = c then (matchHere pat s').map fun mg => (d :: mg.1, mg.2) else none
  | .star k cap :: pat, s =>
    (matchStar k.test (matchHere pat) s).map fun am =>
      (am.1 ++ am.2.1, if cap then some am.1 else am.2.2)
  | .eot :: pat, s =>
    match s with
    | [] => matchHere pat []
    | _ :: _ => none

/-- Leftmost match: the first start position at which the pattern matches. -/
def regexFind (pat : Pattern) : Str → Option (Str × Option Str)
  | [] => matchHere pat []
  | c :: cs =>
    match matchHere pat (c :: cs) with
    | some r => some r
    | none => regexFind pat cs

/-- Go `(*Regexp).FindStringSubmatch`: the matched text followed by the text of
group 1, or the nil slice when there is no match. -/
def FindStringSubmatch (pat : Pattern) (s : Str) : List Str :=
  match regexFind pat s with
  | none => []
  | some (m, g) => [m, g.getD []]

/-- Go `(*Regexp).MatchString`. -/
def MatchString (pat : Pattern) (s : Str) : Bool :=
  (regexFind pat s).isSome

/-- The literal items of a text. -/
def lits (s : Str) : Pattern := s.map Item.lit

/-- The slice access `m[i]`: a fault when `i` is out of range. -/
def index {α : Type} (m : List α) (i : Nat) : GoResult α :=
  match m.get? i with
  | some v => .ok v
  | none => .panic

/-- The pattern `/nc_([0-9]*)/`. -/
def reID : Pattern := lits "/nc_".toList ++ [.star .digit true, .lit '/']

/-- The pattern `(.*)m2.*$`. -/
def reArea : Pattern := [.star .dot true, .lit 'm', .lit '2', .star .dot false, .eot]

/-- The pattern `万円$`. -/
def rePrice : Pattern := lits "万円".toList ++ [.eot]

/-- The pattern `情報提供日：(.*)$`. -/
def rePostingDate : Pattern := lits "情報提供日：".toList ++ [.star .dot true, .eot]

/-! ## The URL -/

/-- The parts of a `*url.URL` the package reads. -/
structure URL where
  /-- Value of `u.String()` -/
  str : Str
  /-- Value of `u.RawPath` -/
  rawPath : Str
  /-- Value of `u.RawQuery` -/
  rawQuery : Str
  deriving DecidableEq, Repr

/-- Source function `extractIDFromURL`. The pattern compiles, so `err` is nil at both tests
and the `RawPath` error is never built; the match result is indexed without a
test of its length. -/
def extractIDFromURL (u : URL) : GoResult Str :=
  (index (FindStringSubmatch reID u.str) 1).bind fun id =>
  let err : Option GoError := none
  match err with
  | some _ => .error (.rawPath u.rawPath)
  | none => .ok id

/-! ## package `strconv` -/

/-- Test `'0' <= c && c <= '9'`. -/
def isDigit (c : Char) : Bool := 48 ≤ c.toNat && c.toNat ≤ 57

/-- Value `c - '0'`. -/
def digitVal (c : Char) : Nat := c.toNat - 48

/-- Value of a run of decimal digits read after the value `n`; `none` when a
character is not a digit. -/
def digitsValue : Str → Nat → Option Nat
  | [], n => some n
  | c :: cs, n => if isDigit c then digitsValue cs (n * 10 + digitVal c) else none

/-- Wrap-around of 64-bit two's-complement arithmetic. -/
def wrapInt64 (x : Int) : Int := (x + 2 ^ 63) % 2 ^ 64 - 2 ^ 63

/-- The text after an optional sign: `if s[0] == '-' || s[0] == '+' { s = s[1:] }`. -/
def dropSign (s : Str) : Str :=
  match s with
  | [] => []
  | c :: r => if c = '-' ∨ c = '+' then r else c :: r

/-- Go `strconv.Atoi` for a 64-bit `int`: an optional sign and a non-empty run of
decimal digits whose value lies in the range of `int`; a `*NumError`
otherwise. -/
def Atoi (s : Str) : Except GoError Int :=
  let neg : Bool := s.head? == some '-'
  match dropSign s with
  | [] => .error (.atoi s)
  | c :: cs =>
    match digitsValue (c :: cs) 0 with
    | none => .error (.atoi s)
    | some n =>
      if neg then (if n ≤ 2 ^ 63 then .ok (-(n : Int)) else .error (.atoi s))
      else (if n < 2 ^ 63 then .ok (n : Int) else .error (.atoi s))

/-! ### `strconv.ParseFloat`

A value of `float64` is kept as its sign, integer mantissa and binary
exponent. `ParseFloat` reads an optionally signed infinity or a NaN, or a
decimal or hexadecimal number with optional underscores, and converts the
number read to the nearest `float64`, ties to even; a number that rounds beyond
the largest `float64` gives a range error. The conversion of the package
`strconv` works on a truncated mantissa with a flag for the digits left out
and yields the correctly rounded value; here the value read is kept exact and
rounded once. -/

/-- A value of `float64`: `(-1) ^ neg * mant * 2 ^ exp` with `mant < 2 ^ 53` and
`-1074 ≤ exp ≤ 971`, an infinity, or a NaN. Zero has mantissa 0 and exponent
-1074. -/
inductive Float64 where
  /-- a finite value -/
  | finite (neg : Bool) (mant : Nat) (exp : Int)
  /-- an infinity -/
  | inf (neg : Bool)
  /-- a NaN -/
  | nan
  deriving DecidableEq, Repr

/-- Number of binary digits of `n`, read with fuel `n`. -/
def bitLen : Nat → Nat → Nat
  | 0, _ => 0
  | fuel + 1, n => if n = 0 then 0 else bitLen fuel (n / 2) + 1

/-- The `float64` nearest to `num / den`, ties to even, with the given sign,
and whether the value overflows: it then rounds to a magnitude of `2 ^ 1024` or
more and the result is the infinity. Values below the normal range round to a
subnormal value or to zero, without overflow. -/
def roundFloat64 (neg : Bool) (num den : Nat) : Float64 × Bool :=
  if num = 0 then (.finite neg 0 (-1074), false)
  else
    let k : Int := (bitLen num num : Int) - (bitLen den den : Int)
    -- the exponent of the leading bit: 2 ^ e ≤ num / den < 2 ^ (e + 1)
    let e : Int := if den * 2 ^ k.toNat ≤ num * 2 ^ (-k).toNat then k else k - 1
    let exp : Int := max (e - 52) (-1074)
    let n := num * 2 ^ (-exp).toNat
    let d := den * 2 ^ exp.toNat
    let q := n / d
    let r := n % d
    let m := if d < 2 * r ∨ (2 * r = d ∧ q % 2 = 1) then q + 1 else q
    let exp2 : Int := if m = 2 ^ 53 then exp + 1 else exp
    let m2 : Nat := if m = 2 ^ 53 then 2 ^ 52 else m
    if exp2 > 971 then (.inf neg, true) else (.finite neg m2 exp2, false)

/-- The test of `commonPrefixLenIgnoreCase` on one character: `c`, with an
upper-case ASCII letter lowered, is the pattern character `l`. -/
def foldEq (c l : Char) : Bool :=
  c == l || (65 ≤ c.toNat && c.toNat ≤ 90 && c.toNat + 32 == l.toNat)

/-- Go `commonPrefixLenIgnoreCase(s, prefix)`, for a lower-case prefix. -/
def commonPrefixLenIgnoreCase : Str → Str → Nat
  | c :: s, l :: p => if foldEq c l then commonPrefixLenIgnoreCase s p + 1 else 0
  | _, _ => 0

/-- The length of `inf` or `infinity` at the start of the text, ignoring case:
3, 8, or another number when neither is there. -/
def infinityLen (s : Str) : Nat :=
  let n := commonPrefixLenIgnoreCase s "infinity".toList
  if 3 < n ∧ n < 8 then 3 else n

/-- Go `special`: an optionally signed infinity or a NaN at the start of the
text, with the number of characters read. -/
def special (s : Str) : Option (Float64 × Nat) :=
  match s with
  | [] => none
  | c :: r =>
    if c = '+' ∨ c = '-' then
      (if infinityLen r = 3 ∨ infinityLen r = 8 then
        some (.inf (decide (c = '-')), 1 + infinityLen r) else none)
    else if c = 'i' ∨ c = 'I' then
      (if infinityLen (c :: r) = 3 ∨ infinityLen (c :: r) = 8 then
        some (.inf false, infinityLen (c :: r)) else none)
    else if c = 'n' ∨ c = 'N' then
      (if commonPrefixLenIgnoreCase (c :: r) "nan".toList = 3 then some (.nan, 3) else none)
    else none

/-- The letters of the hexadecimal digits: `'a' <= lower(c) && lower(c) <= 'f'`. -/
def isHexLetter (c : Char) : Bool :=
  (97 ≤ c.toNat && c.toNat ≤ 102) || (65 ≤ c.toNat && c.toNat ≤ 70)

/-- Value of the letter of a hexadecimal digit: `lower(c) - 'a' + 10`. -/
def hexVal (c : Char) : Nat :=
  (if 97 ≤ c.toNat then c.toNat - 97 else c.toNat - 65) + 10

/-- The digits read by the loop of `readFloat`. -/
structure MantState where
  /-- the point has been read -/
  sawdot : Bool := false
  /-- a digit has been read -/
  sawdigits : Bool := false
  /-- the digits read, as a number in the base -/
  mant : Nat := 0
  /-- the number of digits read after the point -/
  frac : Nat := 0
  deriving DecidableEq, Repr

/-- One more digit of the mantissa. -/
def MantState.push (st : MantState) (base v : Nat) : MantState :=
  { st with sawdigits := true, mant := st.mant * base + v,
            frac := if st.sawdot then st.frac + 1 else st.frac }

/-- The loop of `readFloat` over the mantissa: underscores, one point, digits
and, in base 16, the letters `a` to `f`; it stops at the first other character
or at a second point and returns the text left. -/
def scanMant (hex : Bool) : Str → MantState → MantState × Str
  | [], st => (st, [])
  | c :: cs, st =>
    if c = '_' then scanMant hex cs st
    else if c = '.' then
      (if st.sawdot then (st, c :: cs) else scanMant hex cs { st with sawdot := true })
    else if isDigit c then scanMant hex cs (st.push (if hex then 16 else 10) (digitVal c))
    else if hex && isHexLetter c then scanMant hex cs (st.push 16 (hexVal c))
    else (st, c :: cs)

/-- The digits of the exponent, underscores skipped, up to the end of the
text; the value stops growing at 10000. -/
def scanExpDigits : Str → Nat → Option Nat
  | [], e => some e
  | c :: cs, e =>
    if c = '_' then scanExpDigits cs e
    else if isDigit c then scanExpDigits cs (if e < 10000 then e * 10 + digitVal c else e)
    else none

/-- The exponent after its letter: an optional sign and digits, the first
character after the sign being a digit. -/
def scanExp (s : Str) : Option Int :=
  match s with
  | [] => none
  | c :: cs =>
    let esign : Int := if c = '-' then -1 else 1
    let ds : Str := if c = '+' ∨ c = '-' then cs else c :: cs
    match ds with
    | [] => none
    | d :: _ => if isDigit d then (scanExpDigits ds 0).map fun e => esign * (e : Int) else none

/-- The last kind of character seen by `underscoreOK`. -/
inductive Saw where
  /-- nothing yet -/
  | start
  /-- a digit, or the base prefix -/
  | digit
  /-- an underscore -/
  | underscore
  /-- any other character -/
  | other
  deriving DecidableEq, Repr

/-- The loop of `underscoreOK`: an underscore must stand between two digits. -/
def underscoreScan (hex : Bool) : Str → Saw → Bool
  | [], saw => saw != .underscore
  | c :: cs, saw =>
    if isDigit c || (hex && isHexLetter c) then underscoreScan hex cs .digit
    else if c = '_' then (if saw != .digit then false else underscoreScan hex cs .underscore)
    else if saw == .underscore then false
    else underscoreScan hex cs .other

/-- Go `underscoreOK`. -/
def underscoreOK (s : Str) : Bool :=
  match dropSign s with
  | '0' :: b :: rest =>
    if b = 'b' ∨ b = 'B' ∨ b = 'o' ∨ b = 'O' ∨ b = 'x' ∨ b = 'X' then
      underscoreScan (decide (b = 'x' ∨ b = 'X')) rest .digit
    else underscoreScan false ('0' :: b :: rest) .start
  | t => underscoreScan false t .start

/-- The number read by `readFloat`: its value is
`mant * 10 ^ (exp - frac)`, or `mant * 2 ^ (exp - 4 * frac)` in base 16. -/
structure FloatSyntax where
  /-- the sign -/
  neg : Bool
  /-- base 16 -/
  hex : Bool
  /-- the digits of the mantissa, as a number -/
  mant : Nat
  /-- the number of digits after the point -/
  frac : Nat
  /-- the exponent written -/
  exp : Int
  deriving DecidableEq, Repr

/-- The test of `readFloat` for base 16: `0x` or `0X` followed by at least one
more character. -/
def hexPrefix (body : Str) : Bool :=
  match body with
  | c :: x :: _ :: _ => decide (c = '0' ∧ (x = 'x' ∨ x = 'X'))
  | _ => false

/-- The exponent of `readFloat` on the text left by the mantissa, read to its
end: none written, which base 16 does not accept, or the letter of the base
(`e`, `p`, in either case) and its digits. -/
def readExponent (hex : Bool) (rest : Str) : Option Int :=
  match rest with
  | [] => if hex then none else some 0
  | c :: r =>
    if (hex = false ∧ (c = 'e' ∨ c = 'E')) ∨ (hex = true ∧ (c = 'p' ∨ c = 'P')) then scanExp r
    else none

/-- Go `readFloat` on a text it must read to its end: an optional sign, an
optional `0x`, the mantissa with at least one digit, and an exponent, which
base 16 requires; underscores are accepted where `underscoreOK` allows them.
`none` when the text is not of this form. -/
def readFloat (s : Str) : Option FloatSyntax :=
  match s with
  | [] => none
  | _ :: _ =>
    let body := dropSign s
    let hex := hexPrefix body
    let digits := if hex then body.drop 2 else body
    if (scanMant hex digits {}).1.sawdigits = false then none
    else
      match readExponent hex (scanMant hex digits {}).2 with
      | none => none
      | some e =>
        if s.contains '_' && !underscoreOK s then none
        else some { neg := s.head? == some '-', hex := hex,
                    mant := (scanMant hex digits {}).1.mant,
                    frac := (scanMant hex digits {}).1.frac, exp := e }

/-- The `float64` of a number read, and whether it overflows. -/
def FloatSyntax.toFloat64 (n : FloatSyntax) : Float64 × Bool :=
  let e : Int := if n.hex then n.exp - 4 * (n.frac : Int) else n.exp - (n.frac : Int)
  let b : Nat := if n.hex then 2 else 10
  roundFloat64 n.neg (n.mant * b ^ e.toNat) (b ^ (-e).toNat)

/-- Go `strconv.ParseFloat(s, 64)`: the value of the text, a `*NumError` with
`ErrSyntax` when the text is not a number, a `*NumError` with `ErrRange` when
the number overflows. -/
def ParseFloat (s : Str) : Except GoError Float64 :=
  match special s with
  | some (f, n) => if n = s.length then .ok f else .error (.parseFloat s)
  | none =>
    match readFloat s with
    | none => .error (.parseFloat s)
    | some n => if n.toFloat64.2 then .error (.parseFloat s) else .ok n.toFloat64.1

/-! ## package `time`

`time.Parse` for layouts made of literal text and the elements `2006`, `1`,
`2` and `MST`, which covers the two layouts of the package. The clock fields
are absent from both, so a parsed time is midnight of a civil date, with the
zone abbreviation read from the text. -/

/-- The fields of a parsed `time.Time`: civil date at 00:00:00 and the zone
abbreviation; the empty abbreviation stands for UTC. -/
structure Time where
  /-- the year -/
  year : Nat
  /-- the month, 1..12 -/
  month : Nat
  /-- the day of the month -/
  day : Nat
  /-- the zone abbreviation -/
  zoneName : Str
  deriving DecidableEq, Repr

/-- Layout elements. -/
inductive Std where
  /-- Layout element `2006` -/
  | longYear
  /-- Layout element `1` -/
  | numMonth
  /-- Layout element `2` -/
  | day
  /-- Layout element `MST` -/
  | tz
  deriving DecidableEq, Repr

/-- A layout cut into chunks by `nextStdChunk`: each element with the literal
text before it. Both layouts of the package end with an element. -/
abbrev Layout := List (Str × Std)

/-- The layout `2006年1月 MST`. -/
def layoutYearMonth : Layout :=
  [([], .longYear), ("年".toList, .numMonth), ("月 ".toList, .tz)]

/-- The layout `2006/1/2 MST`. -/
def layoutYearMonthDay : Layout :=
  [([], .longYear), ("/".toList, .numMonth), ("/".toList, .day), (" ".toList, .tz)]

/-- Go `cutspace`: removal of the leading spaces. -/
def cutspace : Str → Str
  | [] => []
  | c :: cs => if c = ' ' then cutspace cs else c :: cs

/-- Go `skip(value, prefix)`: removal of the literal prefix from the value, a run
of spaces of the prefix standing for any run of spaces of the value, the
empty one included. `inRun` holds inside a run of spaces of the prefix that has
been dealt with. -/
def skipAux : Bool → Str → Str → Option Str
  | _, value, [] => some value
  | inRun, value, p :: pre =>
    if p = ' ' then
      if inRun then skipAux true value pre
      else
        match value with
        | [] => skipAux true [] pre
        | v :: vs => if v = ' ' then skipAux true (cutspace vs) pre else none
    else
      match value with
      | [] => none
      | v :: vs => if v = p then skipAux false vs pre else none

/-- Go `skip`. -/
def skip (value pre : Str) : Option Str := skipAux false value pre

/-- Go `getnum(s, false)`: a number of one or two digits. -/
def getnum : Str → Option (Nat × Str)
  | [] => none
  | a :: rest =>
    if isDigit a then
      match rest with
      | [] => some (digitVal a, [])
      | b :: rest2 =>
        if isDigit b then some (digitVal a * 10 + digitVal b, rest2)
        else some (digitVal a, b :: rest2)
    else none

/-- Length of the leading run of decimal digits. -/
def digitRun : Str → Nat
  | [] => 0
  | c :: cs => if isDigit c then digitRun cs + 1 else 0

/-- Go `parseSignedOffset`: length of a sign followed by a non-empty run of
digits of value at most 23; 0 otherwise. -/
def parseSignedOffset (value : Str) : Nat :=
  match value with
  | [] => 0
  | sign :: rest =>
    if sign = '-' ∨ sign = '+' then
      let n := digitRun rest
      if n = 0 then 0
      else
        match digitsValue (rest.take n) 0 with
        | some x => if x > 23 then 0 else n + 1
        | none => 0
    else 0

/-- Number of leading upper-case ASCII letters, counted up to 6. -/
def upperRun : Nat → Str → Nat
  | 0, _ => 0
  | _ + 1, [] => 0
  | fuel + 1, c :: cs => if 65 ≤ c.toNat ∧ c.toNat ≤ 90 then upperRun fuel cs + 1 else 0

/-- Go `parseTimeZone`: length of the zone abbreviation at the start of the
value. -/
def parseTimeZone (value : Str) : Option Nat :=
  if value.length < 3 then none
  else if value.take 4 = "ChST".toList ∨ value.take 4 = "MeST".toList then some 4
  else if value.take 3 = "GMT".toList then
    (if value.length = 3 then some 3 else some (3 + parseSignedOffset (value.drop 3)))
  else if value.head? = some '+' ∨ value.head? = some '-' then
    (if parseSignedOffset value > 0 then some (parseSignedOffset value) else none)
  else
    match upperRun 6 value with
    | 5 => if value.get? 4 = some 'T' then some 5 else none
    | 4 => if value.get? 3 = some 'T' ∨ value.take 4 = "WITA".toList then some 4 else none
    | 3 => some 3
    | _ => none

/-- Go `daysIn(month, year)`. -/
def daysIn (month year : Nat) : Nat :=
  if month = 2 then
    (if year % 4 = 0 ∧ (year % 100 ≠ 0 ∨ year % 400 = 0) then 29 else 28)
  else if month = 4 ∨ month = 6 ∨ month = 9 ∨ month = 11 then 30
  else 31

/-- The fields collected while a value is parsed; month and day are unset
until their element is met. -/
structure Fields where
  /-- the year -/
  year : Nat := 0
  /-- the month -/
  month : Option Nat := none
  /-- the day -/
  day : Option Nat := none
  /-- the zone abbreviation -/
  zoneName : Str := []
  deriving DecidableEq, Repr

/-- The loop of `time.parse` over the chunks of the layout: the text left
and the fields read, or `none` for a `ParseError`. -/
def parseChunks : Layout → Str → Fields → Option (Str × Fields)
  | [], value, f => some (value, f)
  | (pre, std) :: rest, value, f =>
    match skip value pre with
    | none => none
    | some value =>
      match std with
      | .longYear =>
        match value with
        | a :: b :: c :: d :: value' =>
          if isDigit a ∧ isDigit b ∧ isDigit c ∧ isDigit d then
            parseChunks rest value'
              { f with year := ((digitVal a * 10 + digitVal b) * 10 + digitVal c) * 10 + digitVal d }
          else none
        | _ => none
      | .numMonth =>
        match getnum value with
        | none => none
        | some (m, value') =>
          if m = 0 ∨ 12 < m then none else parseChunks rest value' { f with month := some m }
      | .day =>
        match getnum value with
        | none => none
        | some (d, value') => parseChunks rest value' { f with day := some d }
      | .tz =>
        if value.take 3 = "UTC".toList then parseChunks rest (value.drop 3) { f with zoneName := [] }
        else
          match parseTimeZone value with
          | none => none
          | some n => parseChunks rest (value.drop n) { f with zoneName := value.take n }

/-- Go `time.Parse(layout, value)`: the chunks are read in order, no text may be
left, and the day must exist in the month. -/
def timeParse (layout : Layout) (value : Str) : Except GoError Time :=
  match parseChunks layout value {} with
  | none => .error (.timeParse value)
  | some (rest, f) =>
    match rest with
    | _ :: _ => .error (.timeParse value)
    | [] =>
      let month := f.month.getD 1
      let day := f.day.getD 1
      if day < 1 ∨ day > daysIn month f.year then .error (.timeParse value)
      else .ok { year := f.year, month := month, day := day, zoneName := f.zoneName }

/-! ## The document

`goquery` is the package's document model. An extractor reads a selection
through one fixed query; the selection is represented by the results of these
queries. -/

/-- The detail table, as the results of the queries the extractors run on
it. A selection without nodes returns the empty text and no element for every
query. -/
structure Selection where
  /-- Text of `Find(".fl:contains('物件名')").ParentsFiltered("tr").Find("td").Text()` -/
  nameText : Str
  /-- Text of `Find(".fl:contains('価格')").ParentsFiltered("th").Next().Find("p:contains('円')").Text()` -/
  priceText : Str
  /-- Text of `Find(".fl:contains('間取り')").ParentsFiltered("th").Next().Text()` -/
  floorPlanText : Str
  /-- Text of `Find(".fl:contains('土地面積')").ParentsFiltered("th").Next().Text()` -/
  landAreaText : Str
  /-- Text of `Find(".fl:contains('建物面積')").ParentsFiltered("th").Next().Text()` -/
  buildingAreaText : Str
  /-- Text of `Find(".fl:contains('築年月')").ParentsFiltered("th").Next().Text()` -/
  constructionDateText : Str
  /-- Text of `Find("th:contains('住所')").Next().Find("p:first-child").Text()` -/
  addressText : Str
  /-- the texts of the elements of `Find("th:contains('交通')").Next().Find("div")`,
  in document order -/
  trafficTexts : List Str
  deriving DecidableEq, Repr

/-- The selection without nodes. -/
def Selection.empty : Selection :=
  { nameText := [], priceText := [], floorPlanText := [], landAreaText := [],
    buildingAreaText := [], constructionDateText := [], addressText := [],
    trafficTexts := [] }

/-- A fetched document. -/
structure Document where
  /-- Text of `Find("p:contains('情報提供日')").Text()` -/
  postingDateText : Str
  /-- the selection
  `Find("#mainContents .secTitleInnerR:contains('物件詳細情報')").Parent().Parent().Find("table")`,
  without nodes when the document has no such table -/
  detailTable : Selection
  deriving DecidableEq, Repr

/-- The pointer returned by the chain of `Find`, `Parent`, `Parent`, `Find`
that locates the detail table: `goquery` returns a selection for every query,
never the nil pointer. -/
def Document.findTable (d : Document) : Option Selection := some d.detailTable

/-- What the package takes from outside: the fetch of the document, the
rendering of a time, and the conversion of a text to a `float64`, of type `F`. -/
structure Env (F : Type) where
  /-- Go `goquery.NewDocument` -/
  NewDocument : Str → Except GoError Document
  /-- Go `strconv.ParseFloat(s, 64)` -/
  ParseFloat : Str → Except GoError F
  /-- Go `Time.String` of a parsed time, the zone abbreviation resolved against
  the zone database of the host -/
  timeString : Time → Str

/-- Source type `PropertyInformation`. -/
structure PropertyInformation (F : Type) where
  /-- JSON field `id` -/
  ID : Str
  /-- JSON field `posting_date` -/
  PostingDate : Str
  /-- JSON field `name` -/
  Name : Str
  /-- JSON field `price_yen` -/
  Price : Int
  /-- JSON field `floor_plan` -/
  FloorPlan : Str
  /-- JSON field `land_area_m2` -/
  LandArea : F
  /-- JSON field `building_area_m2` -/
  BuildingArea : F
  /-- JSON field `address` -/
  Address : Str
  /-- JSON field `traffic` -/
  Traffic : List Str
  /-- JSON field `construction_date` -/
  ConstructionDate : Str
  deriving DecidableEq, Repr

/-! ## The extractors -/

/-- Source function `extractTrafficFromSelection`. -/
def extractTrafficFromSelection (s : Selection) : GoResult (List Str) :=
  let traffic := s.trafficTexts
  if traffic.length = 0 then .error (.notFound "交通".toList)
  else .ok traffic

/-- Source function `extractAddressFromSelection`. -/
def extractAddressFromSelection (s : Selection) : GoResult Str :=
  let extractText := s.addressText
  if extractText = [] then .error (.notFound "住所".toList)
  else .ok (TrimSpace extractText)

/-- Source function `extractConstructionDateFromSelection`. -/
def extractConstructionDateFromSelection {F : Type} (env : Env F) (s : Selection) :
    GoResult Str :=
  let extractText := s.constructionDateText
  if extractText = [] then .error (.notFound "築年月".toList)
  else
    let constructionDateString := Trim (TrimSpace extractText) "予定".toList
    (GoResult.ofExcept (timeParse layoutYearMonth (constructionDateString ++ " JST".toList))).bind
      fun t => .ok (env.timeString t)

/-- Source function `extractBuildingAreaFromSelection`. -/
def extractBuildingAreaFromSelection {F : Type} (env : Env F) (s : Selection) : GoResult F :=
  let extractText := s.buildingAreaText
  if extractText = [] then .error (.notFound "建物面積".toList)
  else
    (index (FindStringSubmatch reArea (TrimSpace extractText)) 1).bind fun buildingAreaString =>
    (GoResult.ofExcept (env.ParseFloat buildingAreaString)).bind fun buildingAreaNumber =>
    .ok buildingAreaNumber

/-- Source function `extractLandAreaFromSelection`. -/
def extractLandAreaFromSelection {F : Type} (env : Env F) (s : Selection) : GoResult F :=
  let extractText := s.landAreaText
  if extractText = [] then .error (.notFound "土地面積".toList)
  else
    (index (FindStringSubmatch reArea (TrimSpace extractText)) 1).bind fun landAreaString =>
    (GoResult.ofExcept (env.ParseFloat landAreaString)).bind fun landAreaNumber =>
    .ok landAreaNumber

/-- Source function `extractFloorPlanFromSelection`. -/
def extractFloorPlanFromSelection (s : Selection) : GoResult Str :=
  let extractText := s.floorPlanText
  if extractText = [] then .error (.notFound "間取り".toList)
  else .ok (TrimSpace extractText)

/-- Source function `extractPriceFromSelection`. -/
def extractPriceFromSelection (s : Selection) : GoResult Int :=
  let extractText := s.priceText
  if extractText = [] then .error (.notFound "価格".toList)
  else
    let priceString := Trim (TrimSpace extractText) "億".toList
    if !MatchString rePrice priceString then .error (.priceSuffix priceString)
    else
      (GoResult.ofExcept (Atoi (Trim priceString "万円".toList))).bind fun priceNumber =>
      .ok (wrapInt64 (priceNumber * 10000))

/-- Source function `extractNameFromSelection`. -/
def extractNameFromSelection (s : Selection) : GoResult Str :=
  let extractText := s.nameText
  if extractText = [] then .error (.notFound "物件名".toList)
  else .ok (TrimSpace extractText)

/-- Source function `extractPostingDateFromDocument`. -/
def extractPostingDateFromDocument {F : Type} (env : Env F) (d : Document) : GoResult Str :=
  let extractText := d.postingDateText
  (index (FindStringSubmatch rePostingDate extractText) 1).bind fun extractDate =>
  (GoResult.ofExcept (timeParse layoutYearMonthDay (extractDate ++ " JST".toList))).bind
    fun t => .ok (env.timeString t)

/-- Source function `Parse`. -/
def Parse {F : Type} (env : Env F) (u : URL) : GoResult (PropertyInformation F) :=
  (GoResult.ofExcept (env.NewDocument u.str)).bind fun doc =>
  (extractIDFromURL u).bind fun id =>
  (extractPostingDateFromDocument env doc).bind fun pd =>
  match doc.findTable with
  | none => .error (.tableNotFound u.rawQuery)
  | some table =>
    (extractNameFromSelection table).bind fun name =>
    (extractPriceFromSelection table).bind fun price =>
    (extractFloorPlanFromSelection table).bind fun floorPlan =>
    (extractLandAreaFromSelection env table).bind fun landArea =>
    (extractBuildingAreaFromSelection env table).bind fun buildingArea =>
    (extractConstructionDateFromSelection env table).bind fun constructionDate =>
    (extractAddressFromSelection table).bind fun address =>
    (extractTrafficFromSelection table).bind fun traffic =>
    .ok { ID := id, PostingDate := pd, Name := name, Price := price, FloorPlan := floorPlan,
          LandArea := landArea, BuildingArea := buildingArea,
          ConstructionDate := constructionDate, Address := address, Traffic := traffic }

/-! ## A concrete environment

An instance of `Env` on which the definitions evaluate: the host's zone
database does not define the abbreviation read (`Time.String` then prints the
fabricated zone with offset zero), and `ParseFloat` is `strconv.ParseFloat`. -/

/-- Two decimal digits. -/
def pad2 (n : Nat) : Str := [Char.ofNat (48 + n / 10 % 10), Char.ofNat (48 + n % 10)]

/-- Four decimal digits. -/
def pad4 (n : Nat) : Str := pad2 (n / 100) ++ pad2 (n % 100)

/-- Go `Time.String` for a zone abbreviation fabricated with offset zero:
`2006-01-02 15:04:05 -0700 MST`. -/
def timeStringFixed (t : Time) : Str :=
  pad4 t.year ++ "-".toList ++ pad2 t.month ++ "-".toList ++ pad2 t.day ++
    " 00:00:00 +0000 ".toList ++ (if t.zoneName = [] then "UTC".toList else t.zoneName)

/-- The concrete environment over a fetch. -/
def Env.fixed (fetch : Str → Except GoError Document) : Env Float64 :=
  { NewDocument := fetch, ParseFloat := Sumoson.ParseFloat, timeString := timeStringFixed }

/-- A listing page with every field present. -/
def sampleDocument : Document :=
  { postingDateText := "情報提供日：2016/8/21".toList
    detailTable :=
      { nameText := "\n新宿の家\n".toList
        priceText := "5000万円".toList
        floorPlanText := "3LDK".toList
        landAreaText := "123.45m2".toList
        buildingAreaText := "98.7m2以上".toList
        constructionDateText := "2015年3月予定".toList
        addressText := "東京都新宿区".toList
        trafficTexts := ["JR山手線「新宿」歩5分".toList, "東京メトロ丸ノ内線「新宿」歩7分".toList] } }

/-- The URL of the sample listing. -/
def sampleURL : URL :=
  { str := "https://suumo.jp/ikkodate/tokyo/sc_shinjuku/nc_87706145/".toList
    rawPath := [], rawQuery := [] }

/-- The environment whose fetch returns the sample listing. -/
def sampleEnv : Env Float64 := Env.fixed fun _ => .ok sampleDocument

/-! ## Vocabulary of the statements -/

/-- Value of a run of decimal digits. -/
def decimalValue (d : Str) : Nat := d.foldl (fun n c => n * 10 + digitVal c) 0

/-- An integer literal: an optional sign and a non-empty run of ASCII digits. -/
def isIntLiteral (s : Str) : Bool :=
  !(dropSign s).isEmpty && (dropSign s).all isDigit

/-- The text the price is read from: the value text trimmed of white space and
of the characters `億`. -/
def priceStringOf (s : Selection) : Str := Trim (TrimSpace s.priceText) "億".toList

/-- The text handed to `time.Parse` by `extractConstructionDateFromSelection`,
before ` JST` is appended: the value text trimmed of white space and of the
characters `予` and `定`. -/
def constructionDateStringOf (s : Selection) : Str :=
  Trim (TrimSpace s.constructionDateText) "予定".toList

/-- The form `<year>年<month>月`: four digits, `年`, one or two digits of value
1 to 12, `月`; with `spaces` set, any run of spaces may follow, otherwise
nothing. -/
def isYearMonth (spaces : Bool) (s : Str) : Bool :=
  let y := s.takeWhile isDigit
  match s.drop y.length with
  | '年' :: r2 =>
    let m := r2.takeWhile isDigit
    match r2.drop m.length with
    | '月' :: r4 =>
      y.length == 4 && (m.length == 1 || m.length == 2) &&
        decide (1 ≤ decimalValue m) && decide (decimalValue m ≤ 12) &&
        (if spaces then r4.all (fun c => c == ' ') else r4.isEmpty)
    | _ => false
  | _ => false

/-- States of the reader of a decimal number literal
`[+-]digits[.digits][(e|E)[+-]digits]`, with digits on at least one side of
the point. -/
inductive LitState where
  /-- nothing read -/
  | start
  /-- the sign read -/
  | signed
  /-- digits of the integer part read -/
  | int
  /-- the point read, no digit yet -/
  | point
  /-- the point and digits on one of its sides read -/
  | frac
  /-- the exponent letter read -/
  | expStart
  /-- the sign of the exponent read -/
  | expSigned
  /-- digits of the exponent read -/
  | expDigits
  deriving DecidableEq, Repr

/-- One character of a decimal literal. -/
def LitState.step (st : LitState) (c : Char) : Option LitState :=
  match st with
  | .start =>
    if isDigit c then some .int else if c = '+' ∨ c = '-' then some .signed
    else if c = '.' then some .point else none
  | .signed => if isDigit c then some .int else if c = '.' then some .point else none
  | .int =>
    if isDigit c then some .int else if c = '.' then some .frac
    else if c = 'e' ∨ c = 'E' then some .expStart else none
  | .point => if isDigit c then some .frac else none
  | .frac => if isDigit c then some .frac else if c = 'e' ∨ c = 'E' then some .expStart else none
  | .expStart =>
    if isDigit c then some .expDigits else if c = '+' ∨ c = '-' then some .expSigned else none
  | .expSigned => if isDigit c then some .expDigits else none
  | .expDigits => if isDigit c then some .expDigits else none

/-- The states in which a literal is complete. -/
def LitState.accepting : LitState → Bool
  | .int => true
  | .frac => true
  | .expDigits => true
  | _ => false

/-- The reader run from a state. -/
def scanLiteral : LitState → Str → Bool
  | st, [] => st.accepting
  | st, c :: cs =>
    match st.step c with
    | some st' => scanLiteral st' cs
    | none => false

/-- A decimal number literal. -/
def isDecimalLiteral (a : Str) : Bool := scanLiteral .start a

/-- The characters of decimal literals. -/
def isLiteralChar (c : Char) : Bool :=
  isDigit c || c == '+' || c == '-' || c == '.' || c == 'e' || c == 'E'

/-! ## Inputs and auxiliary notions of the statements -/

/-- The part of `(.*)m2.*$` after the group. -/
def reAreaTail : Pattern := [.lit 'm', .lit '2', .star .dot false, .eot]

/-- The table of `sampleDocument` with both areas given as `123.45m2以上`. -/
def areaTable : Selection :=
  { sampleDocument.detailTable with
    landAreaText := "123.45m2以上".toList, buildingAreaText := "123.45m2以上".toList }

/-- The table of `sampleDocument` with both areas given in `平米`. -/
def areaTableNoMarker : Selection :=
  { sampleDocument.detailTable with
    landAreaText := "120平米".toList, buildingAreaText := "120平米".toList }

/-- The table of `sampleDocument` with the construction date `2015年3月`. -/
def dateTable : Selection :=
  { sampleDocument.detailTable with constructionDateText := "2015年3月".toList }

/-- The table of `sampleDocument` with the construction date `2015年3月 予定`. -/
def dateTableSpaced : Selection :=
  { sampleDocument.detailTable with constructionDateText := "2015年3月 予定".toList }

/-- The table of `sampleDocument` with the construction date `2015年13月`. -/
def dateTableMonth13 : Selection :=
  { sampleDocument.detailTable with constructionDateText := "2015年13月".toList }

/-- The outcome of a call without its value. -/
def GoResult.void {α : Type} : GoResult α → GoResult Unit
  | .ok _ => .ok ()
  | .error e => .error e
  | .panic => .panic

/-- The first outcome of a sequence that is not a success. -/
def firstNonOk : List (GoResult Unit) → GoResult Unit
  | [] => .ok ()
  | .ok _ :: rs => firstNonOk rs
  | .error e :: _ => .error e
  | .panic :: _ => .panic

/-- The outcomes of the ten extractors on a URL and its document, in the
order ID, posting date, name, price, floor plan, land area, building area,
construction date, address, traffic. -/
def outcomes {F : Type} (env : Env F) (u : URL) (doc : Document) : List (GoResult Unit) :=
  [ (extractIDFromURL u).void,
    (extractPostingDateFromDocument env doc).void,
    (extractNameFromSelection doc.detailTable).void,
    (extractPriceFromSelection doc.detailTable).void,
    (extractFloorPlanFromSelection doc.detailTable).void,
    (extractLandAreaFromSelection env doc.detailTable).void,
    (extractBuildingAreaFromSelection env doc.detailTable).void,
    (extractConstructionDateFromSelection env doc.detailTable).void,
    (extractAddressFromSelection doc.detailTable).void,
    (extractTrafficFromSelection doc.detailTable).void ]

/-- The URL of the sample listing cut before its `nc_` segment. -/
def urlNoID : URL :=
  { str := "https://suumo.jp/ikkodate/tokyo/sc_shinjuku/".toList, rawPath := [], rawQuery := [] }

/-- The record of the sample listing. -/
def sampleRecord : PropertyInformation Float64 :=
  { ID := "87706145".toList, PostingDate := "2016-08-21 00:00:00 +0000 JST".toList,
    Name := "新宿の家".toList, Price := 50000000, FloorPlan := "3LDK".toList,
    LandArea := .finite false 8687021468732621 (-46),
    BuildingArea := .finite false 6945395050335437 (-46), Address := "東京都新宿区".toList,
    Traffic := ["JR山手線「新宿」歩5分".toList, "東京メトロ丸ノ内線「新宿」歩7分".toList],
    ConstructionDate := "2015-03-01 00:00:00 +0000 JST".toList }

/-- The table of `sampleDocument` with three blocks in the traffic cell. -/
def trafficTable : Selection :=
  { sampleDocument.detailTable with
    trafficTexts := ["JR山手線「新宿」歩5分".toList, "都営新宿線「新宿」歩8分".toList,
      "小田急線「新宿」歩9分".toList] }

/-- The sample listing without its detail table. -/
def documentNoTable : Document :=
  { postingDateText := sampleDocument.postingDateText, detailTable := Selection.empty }

/-- The environment whose fetch returns `documentNoTable`. -/
def envNoTable : Env Float64 := Env.fixed fun _ => .ok documentNoTable

/-- The sample listing without the paragraph of the posting date. -/
def documentNoPostingDate : Document :=
  { postingDateText := [], detailTable := sampleDocument.detailTable }

/-- The table of `sampleDocument` with white space only in the name and
address cells. -/
def blankTable : Selection :=
  { sampleDocument.detailTable with nameText := " \n ".toList, addressText := "\n".toList }

/-- The price returned, if one is. -/
def GoResult.toOption {α : Type} : GoResult α → Option α
  | .ok v => some v
  | _ => none

/-- The text without one leading `億`, if it has one. -/
def stripLeadingOku (t : Str) : Str :=
  match t with
  | [] => []
  | c :: r => if c = '億' then r else c :: r

/-- The text without its last two characters. -/
def dropUnit (t : Str) : Str := t.take (t.length - 2)

/-- The reference price parser, in the words of the specification: on the
trimmed value text, strip one leading `億` if present, require the text to end
with `万円`, remove exactly that two-character suffix, parse the remainder as
an integer and multiply by 10000; fail otherwise. -/
def referencePrice (text : Str) : Option Int :=
  let t := stripLeadingOku (TrimSpace text)
  if "万円".toList <:+ t then
    match Atoi (dropUnit t) with
    | .ok n => some (wrapInt64 (n * 10000))
    | .error _ => none
  else none

/-- The selection whose price cell holds the given text. -/
def priceTable (text : Str) : Selection := { Selection.empty with priceText := text }

/-- The selection whose area cells hold the given text. -/
def areaTableOf (text : Str) : Selection :=
  { Selection.empty with landAreaText := text, buildingAreaText := text }

/-- A segment `/nc_<digits>/` starts the text. -/
def isSegmentStart (t : Str) : Bool :=
  match t with
  | '/' :: 'n' :: 'c' :: '_' :: rest => (rest.dropWhile isDigit).head? == some '/'
  | _ => false

/-- The URL `https://suumo.jp/nc_/`. -/
def urlEmptyID : URL := { str := "https://suumo.jp/nc_/".toList, rawPath := [], rawQuery := [] }

/-- The state of the loop of `readFloat` over the mantissa agrees with the
state of the reader of literals. -/
def MantOK : LitState → MantState → Prop
  | .signed, ms => ms.sawdot = false
  | .int, ms => ms.sawdot = false ∧ ms.sawdigits = true
  | .point, ms => ms.sawdot = true
  | .frac, ms => ms.sawdot = true ∧ ms.sawdigits = true
  | _, _ => False

/-- The text left by the mantissa of a literal: nothing, or the exponent. -/
def ExpOK (rest : Str) : Prop :=
  rest = [] ∨ ∃ c r, rest = c :: r ∧ (c = 'e' ∨ c = 'E') ∧ scanLiteral .expStart r = true

/-- The sample listing with a price in `円` and a land area in `平米`. -/
def documentPriceThenFault : Document :=
  { postingDateText := sampleDocument.postingDateText
    detailTable :=
      { sampleDocument.detailTable with
        priceText := "5000円".toList, landAreaText := "120平米".toList } }

/-- The environment whose fetch returns `documentPriceThenFault`. -/
def envPriceThenFault : Env Float64 := Env.fixed fun _ => .ok documentPriceThenFault

/-! ## Lemmas on the matcher -/

theorem matchStar_run {ρ : Type} (p : Char → Bool) (k : Str → Option ρ) (r : ρ) (rest : Str)
    (hrest : ∀ c cs, rest = c :: cs → p c = false) (hk : k rest = some r) :
    ∀ d : Str, (∀ c ∈ d, p c = true) → matchStar p k (d ++ rest) = some (d, r) := by
  intro d
  induction d with
  | nil =>
    intro _
    cases rest with
    | nil => simp [matchStar, hk]
    | cons c cs => simp [matchStar, hrest c cs rfl, hk]
  | cons c d ih =>
    intro hd
    have hc : p c = true := hd c (List.mem_cons_self c d)
    have hd2 : ∀ x ∈ d, p x = true := fun x hx => hd x (List.mem_cons_of_mem c hx)
    simp [matchStar, hc, ih hd2]

theorem regexFind_skip (pat : Pattern) (x : Str) :
    ∀ p : Str, (∀ t : Str, t ≠ [] → t <:+ p → matchHere pat (t ++ x) = none) →
      regexFind pat (p ++ x) = regexFind pat x := by
  intro p
  induction p with
  | nil => intro _; rfl
  | cons c p ih =>
    intro h
    have h1 : matchHere pat ((c :: p) ++ x) = none :=
      h (c :: p) (List.cons_ne_nil c p) (List.suffix_refl _)
    have h2 : regexFind pat (p ++ x) = regexFind pat x :=
      ih fun t ht hs => h t ht (List.IsSuffix.trans hs (List.suffix_cons c p))
    simp only [List.cons_append] at h1 ⊢
    simp only [regexFind, h1, h2]

theorem regexFind_of_matchHere (pat : Pattern) (s : Str) (r : Str × Option Str)
    (h : matchHere pat s = some r) : regexFind pat s = some r := by
  cases s with
  | nil => simpa [regexFind] using h
  | cons c cs => simp [regexFind, h]

theorem matchHere_reID_head (t : Str) (r : Str × Option Str)
    (h : matchHere reID t = some r) : ∃ rest, t = '/' :: 'n' :: 'c' :: '_' :: rest := by
  match t, h with
  | [], h => simp [reID, lits, matchHere] at h
  | [a], h => simp [reID, lits, matchHere] at h
  | [a, b], h => simp [reID, lits, matchHere] at h
  | [a, b, c], h => simp [reID, lits, matchHere] at h
  | a :: b :: c :: d :: rest, h =>
    simp only [reID, lits, String.toList, List.map, List.cons_append, List.nil_append,
      matchHere] at h
    by_cases ha : a = '/'
    · by_cases hb : b = 'n'
      · by_cases hc : c = 'c'
        · by_cases hd : d = '_'
          · exact ⟨rest, by rw [ha, hb, hc, hd]⟩
          · simp [ha, hb, hc, hd] at h
        · simp [ha, hb, hc] at h
      · simp [ha, hb] at h
    · simp [ha] at h

theorem matchHere_lit (c : Char) (pat : Pattern) (s : Str) :
    matchHere (Item.lit c :: pat) (c :: s)
      = (matchHere pat s).map fun mg => (c :: mg.1, mg.2) := by
  simp [matchHere]

theorem matchHere_star (k : Cls) (cap : Bool) (pat : Pattern) (s : Str) :
    matchHere (Item.star k cap :: pat) s
      = (matchStar k.test (matchHere pat) s).map fun am =>
          (am.1 ++ am.2.1, if cap then some am.1 else am.2.2) := by
  cases s <;> simp [matchHere]

theorem matchHere_reID (d s : Str) (hdig : ∀ c ∈ d, isDigit c = true) :
    matchHere reID ("/nc_".toList ++ d ++ "/".toList ++ s)
      = some ("/nc_".toList ++ d ++ "/".toList, some d) := by
  have hk : matchHere [Item.lit '/'] ('/' :: s) = some (['/'], none) := by
    simp [matchHere]
  have hrun := matchStar_run Cls.digit.test (matchHere [Item.lit '/']) (['/'], none) ('/' :: s)
    (fun c cs h => by
      have : c = '/' := by injection h with h1 _; exact h1.symm
      subst this; decide) hk d hdig
  have e1 : "/nc_".toList ++ d ++ "/".toList ++ s = '/' :: 'n' :: 'c' :: '_' :: (d ++ '/' :: s) := by
    simp
  have e2 : reID = Item.lit '/' :: Item.lit 'n' :: Item.lit 'c' :: Item.lit '_' ::
      Item.star Cls.digit true :: [Item.lit '/'] := rfl
  rw [e1, e2, matchHere_lit, matchHere_lit, matchHere_lit, matchHere_lit, matchHere_star, hrun]
  simp

theorem no_match_inside (p x : Str) (hp : ¬ "/nc_".toList <:+: p) :
    ∀ t : Str, t ≠ [] → t <:+ p → matchHere reID (t ++ ("/nc_".toList ++ x)) = none := by
  intro t ht hs
  cases hm : matchHere reID (t ++ ("/nc_".toList ++ x)) with
  | none => rfl
  | some r =>
    exfalso
    obtain ⟨rest, hrest⟩ := matchHere_reID_head _ r hm
    match t, ht, hs, hrest with
    | [a], _, _, hrest => simp at hrest
    | [a, b], _, _, hrest => simp at hrest
    | [a, b, c], _, _, hrest => simp at hrest
    | a :: b :: c :: d :: t', _, hs, hrest =>
      simp only [List.cons_append, List.cons.injEq] at hrest
      obtain ⟨ha, hb, hc, hd, _⟩ := hrest
      apply hp
      obtain ⟨pre, hpre⟩ := hs
      refine ⟨pre, t', ?_⟩
      rw [← hpre, ha, hb, hc, hd]
      simp

/-! ## The listing ID -/

/-- C2: for every URL whose string form is `p ++ "/nc_" ++ d ++ "/" ++ s` with
`d` a non-empty run of ASCII digits and no occurrence of `/nc_` in `p`,
`extractIDFromURL` returns exactly `d` and no error. -/
theorem extractIDFromURL_digits (u : URL) (p d s : Str)
    (hu : u.str = p ++ "/nc_".toList ++ d ++ "/".toList ++ s)
    (hne : d ≠ []) (hdig : ∀ c ∈ d, isDigit c = true)
    (hp : ¬ "/nc_".toList <:+: p) :
    extractIDFromURL u = .ok d := by
  have _ := hne
  have h1 : regexFind reID u.str = some ("/nc_".toList ++ d ++ "/".toList, some d) := by
    rw [hu]
    have e : p ++ "/nc_".toList ++ d ++ "/".toList ++ s
        = p ++ ("/nc_".toList ++ (d ++ "/".toList ++ s)) := by simp
    rw [e, regexFind_skip reID _ p (no_match_inside p _ hp)]
    apply regexFind_of_matchHere
    have := matchHere_reID d s hdig
    simpa using this
  simp [extractIDFromURL, FindStringSubmatch, h1, index, GoResult.bind]

/-- Witness of C2: the listing URL quoted in `main.go`. -/
theorem extractIDFromURL_digits_witness :
    extractIDFromURL sampleURL = .ok "87706145".toList :=
  extractIDFromURL_digits sampleURL "https://suumo.jp/ikkodate/tokyo/sc_shinjuku".toList
    "87706145".toList [] (by decide) (by decide) (by decide) (by decide)

/-- C3: a URL without a `/nc_<digits>/` segment (here the listing URL of
`main.go` cut before the segment) makes `extractIDFromURL` fault on the index
of the empty match result, and no URL at all makes it return an error. -/
theorem extractIDFromURL_no_segment_faults :
    extractIDFromURL ⟨"https://suumo.jp/ikkodate/tokyo/sc_shinjuku/".toList, [], []⟩ = .panic
      ∧ ∀ (u : URL) (e : GoError), extractIDFromURL u ≠ .error e := by
  refine ⟨by decide, ?_⟩
  intro u e
  unfold extractIDFromURL index
  cases (FindStringSubmatch reID u.str).get? 1 <;> simp [GoResult.bind]

/-! ## Lemmas on trimming -/

theorem trimLeftFunc_cons_of_neg (p : Char → Bool) (c : Char) (cs : Str) (h : p c = false) :
    trimLeftFunc p (c :: cs) = c :: cs := by
  simp [trimLeftFunc, h]

theorem trimLeftFunc_of_head (p : Char → Bool) (s : Str)
    (h : ∀ c cs, s = c :: cs → p c = false) : trimLeftFunc p s = s := by
  cases s with
  | nil => rfl
  | cons c cs => exact trimLeftFunc_cons_of_neg p c cs (h c cs rfl)

theorem trimRightFunc_all (p : Char → Bool) :
    ∀ ys : Str, (∀ y ∈ ys, p y = true) → trimRightFunc p ys = [] := by
  intro ys
  induction ys with
  | nil => intro _; rfl
  | cons y ys ih =>
    intro h
    have h1 := ih fun z hz => h z (List.mem_cons_of_mem y hz)
    simp [trimRightFunc, h1, h y (List.mem_cons_self y ys)]

theorem trimRightFunc_append_all (p : Char → Bool) (ys : Str) (hys : ∀ y ∈ ys, p y = true) :
    ∀ xs : Str, trimRightFunc p (xs ++ ys) = trimRightFunc p xs := by
  intro xs
  induction xs with
  | nil => simp [trimRightFunc, trimRightFunc_all p ys hys]
  | cons x xs ih => simp [trimRightFunc, ih]

theorem trimRightFunc_cons_of_ne (p : Char → Bool) (c : Char) (cs : Str)
    (h : trimRightFunc p cs ≠ []) : trimRightFunc p (c :: cs) = c :: trimRightFunc p cs := by
  cases hr : trimRightFunc p cs with
  | nil => exact absurd hr h
  | cons a b => simp [trimRightFunc, hr]

theorem trimRightFunc_concat_of_neg (p : Char → Bool) (c : Char) (h : p c = false) :
    ∀ xs : Str, trimRightFunc p (xs ++ [c]) = xs ++ [c] := by
  intro xs
  induction xs with
  | nil => simp [trimRightFunc, h]
  | cons x xs ih =>
    have hne : trimRightFunc p (xs ++ [c]) ≠ [] := by rw [ih]; simp
    rw [List.cons_append, trimRightFunc_cons_of_ne p x _ hne, ih]

theorem trimRightFunc_of_last (p : Char → Bool) (s : Str)
    (h : ∀ xs c, s = xs ++ [c] → p c = false) : trimRightFunc p s = s := by
  rcases List.eq_nil_or_concat s with h0 | ⟨xs, c, hs⟩
  · subst h0; rfl
  · rw [List.concat_eq_append] at hs
    subst hs; exact trimRightFunc_concat_of_neg p c (h xs c rfl) xs

theorem isDigit_ne (c x : Char) (hc : isDigit c = true) (hx : isDigit x = false) : c ≠ x := by
  intro h
  rw [h, hx] at hc
  exact Bool.noConfusion hc

theorem isDigit_not_space (c : Char) (hc : isDigit c = true) : isSpace c = false := by
  simp only [isDigit, Bool.and_eq_true, decide_eq_true_eq] at hc
  simp only [isSpace, Bool.or_eq_false_iff, Bool.and_eq_false_iff, beq_eq_false_iff_ne,
    decide_eq_false_iff_not]
  omega

theorem digitsValue_eq_foldl :
    ∀ (d : Str) (n : Nat), (∀ c ∈ d, isDigit c = true) →
      digitsValue d n = some (d.foldl (fun n c => n * 10 + digitVal c) n) := by
  intro d
  induction d with
  | nil => intro n _; rfl
  | cons c d ih =>
    intro n h
    have hc := h c (List.mem_cons_self c d)
    simp [digitsValue, hc, ih (n * 10 + digitVal c) fun x hx => h x (List.mem_cons_of_mem c hx)]

theorem wrapInt64_of_range (x : Int) (h0 : -(2 ^ 63) ≤ x) (h1 : x < 2 ^ 63) : wrapInt64 x = x := by
  unfold wrapInt64
  have e : (x + 2 ^ 63) % 2 ^ 64 = x + 2 ^ 63 :=
    Int.emod_eq_of_lt (by omega) (by omega)
  omega

theorem regexFind_isSome_iff (pat : Pattern) :
    ∀ s : Str, (regexFind pat s).isSome = true ↔
      ∃ t : Str, t <:+ s ∧ (matchHere pat t).isSome = true := by
  intro s
  induction s with
  | nil =>
    constructor
    · intro h; exact ⟨[], List.suffix_refl _, by simpa [regexFind] using h⟩
    · rintro ⟨t, ht, hm⟩
      have : t = [] := List.eq_nil_of_suffix_nil ht
      subst this; simpa [regexFind] using hm
  | cons c cs ih =>
    constructor
    · intro h
      cases hm : matchHere pat (c :: cs) with
      | some r => exact ⟨c :: cs, List.suffix_refl _, by simp [hm]⟩
      | none =>
        simp only [regexFind, hm] at h
        obtain ⟨t, ht, hmt⟩ := ih.mp h
        exact ⟨t, List.IsSuffix.trans ht (List.suffix_cons c cs), hmt⟩
    · rintro ⟨t, ht, hmt⟩
      cases hm : matchHere pat (c :: cs) with
      | some r => simp [regexFind, hm]
      | none =>
        simp only [regexFind, hm]
        rcases List.suffix_cons_iff.mp ht with h1 | h1
        · subst h1; simp [hm] at hmt
        · exact ih.mpr ⟨t, h1, hmt⟩

theorem matchHere_rePrice_iff (t : Str) :
    (matchHere rePrice t).isSome = true ↔ t = "万円".toList := by
  have e : rePrice = [Item.lit '万', Item.lit '円', Item.eot] := rfl
  rw [e]
  match t with
  | [] => simp [matchHere]
  | [a] =>
    by_cases ha : a = '万' <;> simp [matchHere, ha]
  | [a, b] =>
    by_cases ha : a = '万' <;> by_cases hb : b = '円' <;> simp [matchHere, ha, hb]
  | a :: b :: c :: rest =>
    by_cases ha : a = '万' <;> by_cases hb : b = '円' <;> simp [matchHere, ha, hb]

/-- Matching `MatchString` with `万円$` is the suffix test. -/
theorem MatchString_rePrice (s : Str) :
    MatchString rePrice s = true ↔ "万円".toList <:+ s := by
  unfold MatchString
  rw [regexFind_isSome_iff]
  constructor
  · rintro ⟨t, ht, hm⟩
    rw [matchHere_rePrice_iff] at hm
    rw [← hm]; exact ht
  · intro h
    exact ⟨_, h, (matchHere_rePrice_iff _).mpr rfl⟩

theorem Atoi_digits (d : Str) (hne : d ≠ []) (hdig : ∀ c ∈ d, isDigit c = true) :
    Atoi d = if decimalValue d < 2 ^ 63 then .ok (decimalValue d : Int) else .error (.atoi d) := by
  cases d with
  | nil => exact absurd rfl hne
  | cons c cs =>
    have hc : isDigit c = true := hdig c (List.mem_cons_self c cs)
    have h1 : c ≠ '-' := isDigit_ne c '-' hc (by decide)
    have h2 : c ≠ '+' := isDigit_ne c '+' hc (by decide)
    have hv := digitsValue_eq_foldl (c :: cs) 0 hdig
    simp only [Atoi, dropSign, h1, h2, or_self, if_false, hv, decimalValue, List.head?_cons,
      Option.some.injEq, beq_iff_eq]

theorem Trim_digits_suffix (d suf cutset : Str) (hne : d ≠ []) (hdig : ∀ c ∈ d, isDigit c = true)
    (hcut : ∀ c, isDigit c = true → cutset.contains c = false)
    (hsuf : ∀ c ∈ suf, cutset.contains c = true) :
    Trim (d ++ suf) cutset = d := by
  unfold Trim
  have hl : trimLeftFunc (fun c => cutset.contains c) (d ++ suf) = d ++ suf := by
    apply trimLeftFunc_of_head
    intro c cs h
    cases d with
    | nil => exact absurd rfl hne
    | cons x xs =>
      have : x = c := by simp at h; exact h.1
      subst this
      exact hcut x (hdig x (List.mem_cons_self x xs))
  rw [hl, trimRightFunc_append_all _ suf hsuf]
  apply trimRightFunc_of_last
  intro xs c h
  exact hcut c (hdig c (by rw [h]; simp))

theorem Trim_id (s cutset : Str)
    (hhead : ∀ c cs, s = c :: cs → cutset.contains c = false)
    (hlast : ∀ xs c, s = xs ++ [c] → cutset.contains c = false) :
    Trim s cutset = s := by
  unfold Trim
  rw [trimLeftFunc_of_head _ s hhead, trimRightFunc_of_last _ s hlast]

/-! ## The price -/

/-- C4: when the price text, trimmed of white space, is a non-empty run `d` of
ASCII digits followed by `万円`, and 10000 times the value of `d` fits a 64-bit
signed integer, `extractPriceFromSelection` returns that product and no
error. -/
theorem extractPrice_digits (s : Selection) (d : Str)
    (hne : d ≠ []) (hdig : ∀ c ∈ d, isDigit c = true)
    (hrange : (decimalValue d : Int) * 10000 < 2 ^ 63)
    (htext : TrimSpace s.priceText = d ++ "万円".toList) :
    extractPriceFromSelection s = .ok ((decimalValue d : Int) * 10000) := by
  have hP : s.priceText ≠ [] := by
    intro h
    rw [h] at htext
    have : d ++ "万円".toList = [] := htext.symm
    simp at this
  have hT1 : Trim (d ++ "万円".toList) "億".toList = d ++ "万円".toList := by
    apply Trim_id
    · intro c cs h
      cases d with
      | nil => exact absurd rfl hne
      | cons x xs =>
        have : x = c := by simp at h; exact h.1
        subst this
        have hx := hdig x (List.mem_cons_self x xs)
        have := isDigit_ne x '億' hx (by decide)
        simp [this]
    · intro xs c h
      have e : d ++ "万円".toList = (d ++ ['万']) ++ ['円'] := by simp
      rw [e] at h
      have := List.append_inj' h rfl
      have hc : c = '円' := by simpa using this.2.symm
      subst hc; decide
  have hM : MatchString rePrice (d ++ "万円".toList) = true :=
    (MatchString_rePrice _).mpr ⟨d, rfl⟩
  have hT2 : Trim (d ++ "万円".toList) "万円".toList = d := by
    apply Trim_digits_suffix d _ _ hne hdig
    · intro c hc
      have h1 := isDigit_ne c '万' hc (by decide)
      have h2 := isDigit_ne c '円' hc (by decide)
      simp [h1, h2]
    · decide
  have hlt : decimalValue d < 2 ^ 63 := by
    have : (decimalValue d : Int) < 2 ^ 63 := by omega
    exact_mod_cast this
  have hA : Atoi d = .ok (decimalValue d : Int) := by
    rw [Atoi_digits d hne hdig, if_pos hlt]
  have hW : wrapInt64 ((decimalValue d : Int) * 10000) = (decimalValue d : Int) * 10000 :=
    wrapInt64_of_range _ (by omega) hrange
  unfold extractPriceFromSelection
  simp only [hP, htext, hT1, hM, hT2, hA, hW, GoResult.ofExcept, GoResult.bind, if_false,
    Bool.not_true, Bool.false_eq_true]

/-- Witness of C4: `5000万円` gives 50000000. -/
theorem extractPrice_digits_witness :
    extractPriceFromSelection { Selection.empty with priceText := "5000万円".toList }
      = .ok ((decimalValue "5000".toList : Int) * 10000) ∧
    (decimalValue "5000".toList : Int) * 10000 = 50000000 :=
  ⟨extractPrice_digits { Selection.empty with priceText := "5000万円".toList } "5000".toList
    (by decide) (by decide) (by decide) (by decide), by decide⟩

theorem digitsValue_some_all :
    ∀ (d : Str) (n v : Nat), digitsValue d n = some v → d.all isDigit = true := by
  intro d
  induction d with
  | nil => intro _ _ _; rfl
  | cons c d ih =>
    intro n v h
    by_cases hc : isDigit c = true
    · simp only [digitsValue, hc, if_true] at h
      simp [hc, ih _ _ h]
    · simp [digitsValue, hc] at h

theorem Atoi_ok_isIntLiteral (s : Str) (v : Int) (h : Atoi s = .ok v) :
    isIntLiteral s = true := by
  unfold Atoi at h
  unfold isIntLiteral
  cases hb : dropSign s with
  | nil => simp [hb] at h
  | cons c cs =>
    rw [hb] at h
    cases hv : digitsValue (c :: cs) 0 with
    | none => simp [hv] at h
    | some n =>
      have := digitsValue_some_all (c :: cs) 0 n hv
      simp [this]

/-- The steps of `extractPriceFromSelection`. -/
theorem extractPrice_unfold (s : Selection) :
    extractPriceFromSelection s =
      if s.priceText = [] then .error (.notFound "価格".toList)
      else if MatchString rePrice (priceStringOf s) = true then
        match Atoi (Trim (priceStringOf s) "万円".toList) with
        | .ok n => .ok (wrapInt64 (n * 10000))
        | .error e => .error e
      else .error (.priceSuffix (priceStringOf s)) := by
  unfold extractPriceFromSelection priceStringOf
  by_cases h0 : s.priceText = []
  · rw [if_pos h0, if_pos h0]
  · rw [if_neg h0, if_neg h0]
    by_cases hm : MatchString rePrice (Trim (TrimSpace s.priceText) "億".toList) = true
    · rw [if_pos hm]
      simp only [hm, Bool.not_true, Bool.false_eq_true, if_false]
      cases Atoi (Trim (Trim (TrimSpace s.priceText) "億".toList) "万円".toList) <;> rfl
    · rw [if_neg hm]
      simp only [hm, Bool.not_false, if_true]

/-- C5, as stated, fails: on the value text `万5000万円` the text ends with
`万円`, what is left without this suffix, `万5000`, is not an integer literal,
and `extractPriceFromSelection` returns the price 50000000 with no error. -/
theorem extractPrice_remainder_counterexample :
    priceStringOf { Selection.empty with priceText := "万5000万円".toList }
        = "万5000".toList ++ "万円".toList
      ∧ isIntLiteral "万5000".toList = false
      ∧ extractPriceFromSelection { Selection.empty with priceText := "万5000万円".toList }
        = .ok 50000000 := by
  decide

/-- C5, amended: `extractPriceFromSelection` returns an error and no price
whenever the value text, trimmed of white space and of `億`, does not end with
`万円`, and whenever what is left of it once every leading and trailing `万` and
`円` is removed is not an integer literal. -/
theorem extractPrice_error (s : Selection)
    (h : ¬ "万円".toList <:+ priceStringOf s
      ∨ isIntLiteral (Trim (priceStringOf s) "万円".toList) = false) :
    ∃ e, extractPriceFromSelection s = .error e := by
  rw [extractPrice_unfold]
  by_cases h0 : s.priceText = []
  · exact ⟨_, if_pos h0⟩
  · rw [if_neg h0]
    by_cases hm : MatchString rePrice (priceStringOf s) = true
    · rw [if_pos hm]
      have hsuf := (MatchString_rePrice _).mp hm
      have hlit : isIntLiteral (Trim (priceStringOf s) "万円".toList) = false := by
        rcases h with h | h
        · exact absurd hsuf h
        · exact h
      cases ha : Atoi (Trim (priceStringOf s) "万円".toList) with
      | error e => exact ⟨e, rfl⟩
      | ok v =>
        rw [Atoi_ok_isIntLiteral _ v ha] at hlit
        exact Bool.noConfusion hlit
    · exact ⟨_, if_neg hm⟩

/-- Witness of the amended C5: a price text in `円`, without `万円`. -/
theorem extractPrice_error_witness :
    ∃ e, extractPriceFromSelection { Selection.empty with priceText := "5000円".toList }
      = .error e :=
  extractPrice_error { Selection.empty with priceText := "5000円".toList }
    (Or.inl (by decide))

/-- C6, as stated, fails: on the value text `922337203685478万円` the product
by 10000 leaves the 64-bit range and the price returned,
-9223372036854771616, is not a multiple of 10000. -/
theorem extractPrice_multiple_counterexample :
    extractPriceFromSelection { Selection.empty with priceText := "922337203685478万円".toList }
        = .ok (-9223372036854771616)
      ∧ ¬ (10000 : Int) ∣ -9223372036854771616 := by
  decide

/-- C6, amended: a price returned by `extractPriceFromSelection` is the 64-bit
wrap-around of 10000 times the integer read from the text, and it is that
product itself, a multiple of 10000, when the product is in the range of a
64-bit signed integer. -/
theorem extractPrice_multiple (s : Selection) (v : Int)
    (h : extractPriceFromSelection s = .ok v) :
    ∃ n : Int, Atoi (Trim (priceStringOf s) "万円".toList) = .ok n
      ∧ v = wrapInt64 (n * 10000)
      ∧ (-(2 ^ 63) ≤ n * 10000 → n * 10000 < 2 ^ 63 → v = n * 10000 ∧ (10000 : Int) ∣ v) := by
  rw [extractPrice_unfold] at h
  by_cases h0 : s.priceText = []
  · rw [if_pos h0] at h; exact GoResult.noConfusion h
  · rw [if_neg h0] at h
    by_cases hm : MatchString rePrice (priceStringOf s) = true
    · rw [if_pos hm] at h
      cases ha : Atoi (Trim (priceStringOf s) "万円".toList) with
      | error e => rw [ha] at h; exact GoResult.noConfusion h
      | ok n =>
        rw [ha] at h
        have hv : wrapInt64 (n * 10000) = v := GoResult.ok.inj h
        refine ⟨n, rfl, hv.symm, ?_⟩
        intro h1 h2
        have hw := wrapInt64_of_range _ h1 h2
        rw [hw] at hv
        exact ⟨hv.symm, ⟨n, by rw [← hv]; ring⟩⟩
    · rw [if_neg hm] at h; exact GoResult.noConfusion h

/-- Witness of the amended C6: `5000万円`. -/
theorem extractPrice_multiple_witness :
    ∃ n : Int, Atoi (Trim (priceStringOf { Selection.empty with priceText := "5000万円".toList })
        "万円".toList) = .ok n
      ∧ (50000000 : Int) = wrapInt64 (n * 10000)
      ∧ (-(2 ^ 63) ≤ n * 10000 → n * 10000 < 2 ^ 63 →
          (50000000 : Int) = n * 10000 ∧ (10000 : Int) ∣ 50000000) :=
  extractPrice_multiple { Selection.empty with priceText := "5000万円".toList } 50000000
    (by decide)

/-! ## The areas -/

theorem trimRightFunc_cons_of_neg (p : Char → Bool) (c : Char) (cs : Str) (h : p c = false) :
    trimRightFunc p (c :: cs) = c :: trimRightFunc p cs := by
  cases hr : trimRightFunc p cs with
  | nil => simp [trimRightFunc, hr, h]
  | cons a b => simp [trimRightFunc, hr]

theorem trimRightFunc_append_of_ne (p : Char → Bool) (ys : Str) (h : trimRightFunc p ys ≠ []) :
    ∀ xs : Str, trimRightFunc p (xs ++ ys) = xs ++ trimRightFunc p ys := by
  intro xs
  induction xs with
  | nil => rfl
  | cons x xs ih =>
    have hne : trimRightFunc p (xs ++ ys) ≠ [] := by
      rw [ih]; intro h2; exact h (List.append_eq_nil.mp h2).2
    rw [List.cons_append, trimRightFunc_cons_of_ne p x _ hne, ih, List.cons_append]

theorem trimRightFunc_isPrefix (p : Char → Bool) : ∀ s : Str, trimRightFunc p s <+: s := by
  intro s
  induction s with
  | nil => exact List.prefix_refl _
  | cons c cs ih =>
    cases hr : trimRightFunc p cs with
    | nil =>
      by_cases hc : p c = true
      · simp [trimRightFunc, hr, hc]
      · simp [trimRightFunc, hr, hc]
    | cons a b =>
      rw [trimRightFunc_cons_of_ne p c cs (by rw [hr]; simp)]
      exact (List.prefix_cons_inj c).mpr ih

theorem trimLeftFunc_suffix (p : Char → Bool) : ∀ s : Str, trimLeftFunc p s <:+ s := by
  intro s
  induction s with
  | nil => exact List.suffix_refl _
  | cons c cs ih =>
    by_cases hc : p c = true
    · simp only [trimLeftFunc, hc, if_true]
      exact List.IsSuffix.trans ih (List.suffix_cons c cs)
    · simp only [trimLeftFunc, hc, if_false]
      exact List.suffix_refl _

theorem TrimSpace_isInfix (s : Str) : TrimSpace s <:+: s :=
  List.IsInfix.trans (trimRightFunc_isPrefix isSpace _).isInfix (trimLeftFunc_suffix isSpace s).isInfix

theorem matchStar_none {ρ : Type} (p : Char → Bool) (k : Str → Option ρ) :
    ∀ s : Str, (∀ u : Str, u <:+ s → k u = none) → matchStar p k s = none := by
  intro s
  induction s with
  | nil => intro h; simp [matchStar, h [] (List.suffix_refl _)]
  | cons c cs ih =>
    intro h
    have h1 := ih fun u hu => h u (List.IsSuffix.trans hu (List.suffix_cons c cs))
    have h2 := h (c :: cs) (List.suffix_refl _)
    by_cases hc : p c = true
    · simp [matchStar, hc, h1, h2]
    · simp [matchStar, hc, h2]

theorem matchStar_cons_pos {ρ : Type} (p : Char → Bool) (k : Str → Option ρ) (c : Char)
    (cs : Str) (hc : p c = true) :
    matchStar p k (c :: cs) =
      match matchStar p k cs with
      | some (a, r) => some (c :: a, r)
      | none => (k (c :: cs)).map fun r => ([], r) := by
  simp [matchStar, hc]

theorem matchStar_extend {ρ : Type} (p : Char → Bool) (k : Str → Option ρ) (r : ρ) (rest : Str)
    (h0 : matchStar p k rest = some ([], r)) :
    ∀ a : Str, (∀ c ∈ a, p c = true) → matchStar p k (a ++ rest) = some (a, r) := by
  intro a
  induction a with
  | nil => intro _; exact h0
  | cons c a ih =>
    intro ha
    have hc : p c = true := ha c (List.mem_cons_self c a)
    have h2 := ih fun x hx => ha x (List.mem_cons_of_mem c hx)
    simp [matchStar, hc, h2]

theorem matchStar_some_split {ρ : Type} (p : Char → Bool) (k : Str → Option ρ) :
    ∀ (s a : Str) (r : ρ), matchStar p k s = some (a, r) → ∃ u, s = a ++ u ∧ k u = some r := by
  intro s
  induction s with
  | nil =>
    intro a r h
    cases hk : k [] with
    | none => simp [matchStar, hk] at h
    | some r0 =>
      simp only [matchStar, hk, Option.map_some', Option.some.injEq, Prod.mk.injEq] at h
      exact ⟨[], by rw [← h.1]; rfl, by rw [← h.2]; exact hk⟩
  | cons c cs ih =>
    intro a r h
    have hbase : (k (c :: cs)).map (fun r => (([] : Str), r)) = some (a, r) →
        ∃ u, c :: cs = a ++ u ∧ k u = some r := by
      intro h
      cases hk : k (c :: cs) with
      | none => simp [hk] at h
      | some r0 =>
        simp only [hk, Option.map_some', Option.some.injEq, Prod.mk.injEq] at h
        exact ⟨c :: cs, by rw [← h.1]; rfl, by rw [← h.2]; exact hk⟩
    by_cases hc : p c = true
    · cases hm : matchStar p k cs with
      | none =>
        simp only [matchStar, hc, if_true, hm] at h
        exact hbase h
      | some ar =>
        obtain ⟨a0, r0⟩ := ar
        simp only [matchStar, hc, if_true, hm, Option.some.injEq, Prod.mk.injEq] at h
        obtain ⟨u, hu, hk⟩ := ih a0 r0 hm
        exact ⟨u, by rw [← h.1, hu]; rfl, by rw [← h.2]; exact hk⟩
    · simp only [matchStar, hc, Bool.false_eq_true, if_false] at h
      exact hbase h

theorem matchHere_reAreaTail_head (t : Str) (r : Str × Option Str)
    (h : matchHere reAreaTail t = some r) : ∃ rest, t = 'm' :: '2' :: rest := by
  match t, h with
  | [], h => simp [reAreaTail, matchHere] at h
  | [a], h => simp [reAreaTail, matchHere] at h
  | a :: b :: rest, h =>
    by_cases ha : a = 'm'
    · by_cases hb : b = '2'
      · exact ⟨rest, by rw [ha, hb]⟩
      · simp [reAreaTail, matchHere, ha, hb] at h
    · simp [reAreaTail, matchHere, ha] at h

theorem matchHere_reAreaTail (b : Str) (hb : ∀ c ∈ b, c ≠ '\n') :
    matchHere reAreaTail ('m' :: '2' :: b) = some ('m' :: '2' :: b, none) := by
  have hk : matchHere [Item.eot] [] = some ([], none) := by simp [matchHere]
  have hrun := matchStar_run Cls.dot.test (matchHere [Item.eot]) ([], none) []
    (fun c cs h => by simp at h) hk b (fun c hc => by simpa [Cls.test] using hb c hc)
  rw [List.append_nil] at hrun
  rw [reAreaTail, matchHere_lit, matchHere_lit, matchHere_star, hrun]
  simp

theorem matchHere_reArea (a b : Str) (ha : ∀ c ∈ a, c ≠ '\n') (hb : ∀ c ∈ b, c ≠ '\n')
    (hb2 : ¬ "m2".toList <:+: b) :
    matchHere reArea (a ++ "m2".toList ++ b) = some (a ++ "m2".toList ++ b, some a) := by
  have hk := matchHere_reAreaTail b hb
  have hnone : matchStar Cls.dot.test (matchHere reAreaTail) ('2' :: b) = none := by
    apply matchStar_none
    intro u hu
    cases hm : matchHere reAreaTail u with
    | none => rfl
    | some r =>
      exfalso
      obtain ⟨rest, hrest⟩ := matchHere_reAreaTail_head u r hm
      rcases List.suffix_cons_iff.mp hu with h1 | h1
      · rw [hrest] at h1
        have : 'm' = '2' := (List.cons.inj h1).1
        exact absurd this (by decide)
      · apply hb2
        obtain ⟨pre, hpre⟩ := h1
        exact ⟨pre, rest, by rw [← hpre, hrest]; simp⟩
  have h0 : matchStar Cls.dot.test (matchHere reAreaTail) ('m' :: '2' :: b)
      = some ([], ('m' :: '2' :: b, none)) := by
    have hm : Cls.dot.test 'm' = true := by decide
    rw [matchStar_cons_pos _ _ _ _ hm, hnone, hk]
    rfl
  have hrun := matchStar_extend Cls.dot.test (matchHere reAreaTail) _ _ h0 a
    (fun c hc => by simpa [Cls.test] using ha c hc)
  have e1 : a ++ "m2".toList ++ b = a ++ 'm' :: '2' :: b := by simp
  have e2 : reArea = Item.star Cls.dot true :: reAreaTail := rfl
  rw [e1, e2, matchHere_star, hrun]
  simp

theorem step_isLiteralChar (st st' : LitState) (c : Char) (h : st.step c = some st') :
    isLiteralChar c = true := by
  cases st <;> simp only [LitState.step] at h <;> split_ifs at h <;>
    simp_all [isLiteralChar] <;> tauto

theorem scanLiteral_chars :
    ∀ (a : Str) (st : LitState), scanLiteral st a = true → ∀ c ∈ a, isLiteralChar c = true := by
  intro a
  induction a with
  | nil => intro _ _ c hc; simp at hc
  | cons x a ih =>
    intro st h c hc
    cases hs : st.step x with
    | none => simp [scanLiteral, hs] at h
    | some st' =>
      simp only [scanLiteral, hs] at h
      rcases List.mem_cons.mp hc with h1 | h1
      · rw [h1]; exact step_isLiteralChar st st' x hs
      · exact ih st' h c h1

theorem isLiteralChar_props (c : Char) (h : isLiteralChar c = true) :
    c ≠ '\n' ∧ isSpace c = false := by
  constructor
  · intro hc; rw [hc] at h; revert h; decide
  · simp only [isLiteralChar, isDigit, Bool.or_eq_true, Bool.and_eq_true, decide_eq_true_eq,
      beq_iff_eq] at h
    have hn : (48 ≤ c.toNat ∧ c.toNat ≤ 57) ∨ c.toNat = 43 ∨ c.toNat = 45 ∨ c.toNat = 46
        ∨ c.toNat = 101 ∨ c.toNat = 69 := by
      rcases h with ((((h | h) | h) | h) | h) | h
      · exact Or.inl h
      · right; left; rw [h]; rfl
      · right; right; left; rw [h]; rfl
      · right; right; right; left; rw [h]; rfl
      · right; right; right; right; left; rw [h]; rfl
      · right; right; right; right; right; rw [h]; rfl
    simp only [isSpace, Bool.or_eq_false_iff, Bool.and_eq_false_iff, beq_eq_false_iff_ne,
      decide_eq_false_iff_not]
    omega

theorem isDecimalLiteral_ne_nil (a : Str) (ha : isDecimalLiteral a = true) : a ≠ [] := by
  intro h; rw [h] at ha; revert ha; decide

theorem TrimSpace_area (a b : Str) (ha : isDecimalLiteral a = true) :
    TrimSpace (a ++ "m2".toList ++ b) = a ++ "m2".toList ++ trimRightFunc isSpace b := by
  have hchars := scanLiteral_chars a LitState.start ha
  have hl : trimLeftFunc isSpace (a ++ "m2".toList ++ b) = a ++ "m2".toList ++ b := by
    apply trimLeftFunc_of_head
    intro c cs h
    cases a with
    | nil => exact absurd rfl (isDecimalLiteral_ne_nil _ ha)
    | cons x xs =>
      have : x = c := by simp at h; exact h.1
      subst this
      exact (isLiteralChar_props x (hchars x (List.mem_cons_self x xs))).2
  have h2 : trimRightFunc isSpace ('2' :: b) = '2' :: trimRightFunc isSpace b :=
    trimRightFunc_cons_of_neg isSpace '2' b (by decide)
  have e : a ++ "m2".toList ++ b = (a ++ ['m']) ++ ('2' :: b) := by simp
  unfold TrimSpace
  rw [hl, e, trimRightFunc_append_of_ne isSpace _ (by rw [h2]; simp), h2]
  simp

/-- The steps of `extractLandAreaFromSelection`. -/
theorem extractLandArea_unfold {F : Type} (env : Env F) (s : Selection) :
    extractLandAreaFromSelection env s =
      if s.landAreaText = [] then .error (.notFound "土地面積".toList)
      else
        match (FindStringSubmatch reArea (TrimSpace s.landAreaText)).get? 1 with
        | none => .panic
        | some x => GoResult.ofExcept (env.ParseFloat x) := by
  unfold extractLandAreaFromSelection index
  by_cases h0 : s.landAreaText = []
  · rw [if_pos h0, if_pos h0]
  · rw [if_neg h0, if_neg h0]
    cases (FindStringSubmatch reArea (TrimSpace s.landAreaText)).get? 1 with
    | none => rfl
    | some x => cases hx : env.ParseFloat x <;> simp [GoResult.bind, GoResult.ofExcept, hx]

/-- The steps of `extractBuildingAreaFromSelection`. -/
theorem extractBuildingArea_unfold {F : Type} (env : Env F) (s : Selection) :
    extractBuildingAreaFromSelection env s =
      if s.buildingAreaText = [] then .error (.notFound "建物面積".toList)
      else
        match (FindStringSubmatch reArea (TrimSpace s.buildingAreaText)).get? 1 with
        | none => .panic
        | some x => GoResult.ofExcept (env.ParseFloat x) := by
  unfold extractBuildingAreaFromSelection index
  by_cases h0 : s.buildingAreaText = []
  · rw [if_pos h0, if_pos h0]
  · rw [if_neg h0, if_neg h0]
    cases (FindStringSubmatch reArea (TrimSpace s.buildingAreaText)).get? 1 with
    | none => rfl
    | some x => cases hx : env.ParseFloat x <;> simp [GoResult.bind, GoResult.ofExcept, hx]

theorem areaCapture (a b : Str) (ha : isDecimalLiteral a = true)
    (hb1 : ∀ c ∈ b, c ≠ '\n') (hb2 : ¬ "m2".toList <:+: b) :
    (FindStringSubmatch reArea (TrimSpace (a ++ "m2".toList ++ b))).get? 1 = some a := by
  have hchars := scanLiteral_chars a LitState.start ha
  have hpre := trimRightFunc_isPrefix isSpace b
  have hm := matchHere_reArea a (trimRightFunc isSpace b)
    (fun c hc => (isLiteralChar_props c (hchars c hc)).1)
    (fun c hc => hb1 c (hpre.subset hc))
    (fun h => hb2 (List.IsInfix.trans h hpre.isInfix))
  rw [TrimSpace_area a b ha]
  unfold FindStringSubmatch
  rw [regexFind_of_matchHere _ _ _ hm]
  rfl

theorem regexFind_reArea_marker (t : Str) (r : Str × Option Str)
    (h : regexFind reArea t = some r) : "m2".toList <:+: t := by
  have h1 : (regexFind reArea t).isSome = true := by rw [h]; rfl
  obtain ⟨u, hu, hm⟩ := (regexFind_isSome_iff reArea t).mp h1
  have e2 : reArea = Item.star Cls.dot true :: reAreaTail := rfl
  rw [e2, matchHere_star] at hm
  cases hs : matchStar Cls.dot.test (matchHere reAreaTail) u with
  | none => rw [hs] at hm; exact Bool.noConfusion hm
  | some ar =>
    obtain ⟨a, r0⟩ := ar
    obtain ⟨v, hv, hk⟩ := matchStar_some_split _ _ u a r0 hs
    obtain ⟨rest, hrest⟩ := matchHere_reAreaTail_head v r0 hk
    obtain ⟨pre, hpre⟩ := hu
    exact ⟨pre ++ a, rest, by rw [← hpre, hv, hrest]; simp⟩

/-- C8: on a non-empty area text without the marker `m2`, or on which the
pattern `(.*)m2.*$` does not match, the land-area and building-area extractors
fault on the index of the empty match result instead of returning an error. -/
theorem extractArea_no_match_faults {F : Type} (env : Env F) (s : Selection) (t : Str)
    (hne : t ≠ [])
    (hno : ¬ "m2".toList <:+: t ∨ regexFind reArea (TrimSpace t) = none) :
    (s.landAreaText = t → extractLandAreaFromSelection env s = .panic)
      ∧ (s.buildingAreaText = t → extractBuildingAreaFromSelection env s = .panic) := by
  have hnone : regexFind reArea (TrimSpace t) = none := by
    rcases hno with h | h
    · cases hr : regexFind reArea (TrimSpace t) with
      | none => rfl
      | some r =>
        exact absurd (List.IsInfix.trans (regexFind_reArea_marker _ r hr) (TrimSpace_isInfix t)) h
    · exact h
  have hget : (FindStringSubmatch reArea (TrimSpace t)).get? 1 = none := by
    unfold FindStringSubmatch; rw [hnone]; rfl
  constructor
  · intro ht
    rw [extractLandArea_unfold, ht, if_neg hne, hget]
  · intro ht
    rw [extractBuildingArea_unfold, ht, if_neg hne, hget]

/-- Witness of C8: the area text `120平米`. -/
theorem extractArea_no_match_faults_witness :
    extractLandAreaFromSelection sampleEnv areaTableNoMarker = .panic
      ∧ extractBuildingAreaFromSelection sampleEnv areaTableNoMarker = .panic :=
  have h := extractArea_no_match_faults sampleEnv areaTableNoMarker "120平米".toList
    (by decide) (Or.inl (by decide))
  ⟨h.1 rfl, h.2 rfl⟩

/-! ## The construction date -/

/-- The steps of `extractConstructionDateFromSelection`. -/
theorem extractConstructionDate_unfold {F : Type} (env : Env F) (s : Selection) :
    extractConstructionDateFromSelection env s =
      if s.constructionDateText = [] then .error (.notFound "築年月".toList)
      else
        match timeParse layoutYearMonth (constructionDateStringOf s ++ " JST".toList) with
        | .ok t => .ok (env.timeString t)
        | .error e => .error e := by
  unfold extractConstructionDateFromSelection constructionDateStringOf
  by_cases h0 : s.constructionDateText = []
  · rw [if_pos h0, if_pos h0]
  · rw [if_neg h0, if_neg h0]
    dsimp only
    cases timeParse layoutYearMonth
      (Trim (TrimSpace s.constructionDateText) "予定".toList ++ " JST".toList) <;> rfl

theorem last_of_append (xs ys : Str) (c d : Char) (h : ys ++ [d] = xs ++ [c]) : c = d := by
  have := (List.append_inj' h rfl).2
  exact (List.cons.inj this).1.symm

theorem Trim_suffix_cut (x suf cutset : Str) (hne : x ≠ [])
    (hhead : ∀ c cs, x = c :: cs → cutset.contains c = false)
    (hlast : ∀ xs c, x = xs ++ [c] → cutset.contains c = false)
    (hsuf : ∀ c ∈ suf, cutset.contains c = true) :
    Trim (x ++ suf) cutset = x := by
  unfold Trim
  have hl : trimLeftFunc (fun c => cutset.contains c) (x ++ suf) = x ++ suf := by
    apply trimLeftFunc_of_head
    intro c cs h
    cases x with
    | nil => exact absurd rfl hne
    | cons a as => exact hhead c (as) (by rw [(List.cons.inj h).1])
  rw [hl, trimRightFunc_append_all _ suf hsuf]
  exact trimRightFunc_of_last _ x hlast

theorem TrimSpace_id (s : Str)
    (hhead : ∀ c cs, s = c :: cs → isSpace c = false)
    (hlast : ∀ xs c, s = xs ++ [c] → isSpace c = false) : TrimSpace s = s := by
  unfold TrimSpace
  rw [trimLeftFunc_of_head _ s hhead, trimRightFunc_of_last _ s hlast]

theorem daysIn_pos (m y : Nat) : 28 ≤ daysIn m y := by
  unfold daysIn
  split_ifs <;> omega

theorem timeParse_of_chunks (layout : Layout) (value : Str) (f : Fields)
    (h : parseChunks layout value {} = some ([], f)) (hd : f.day = none) :
    timeParse layout value
      = .ok { year := f.year, month := f.month.getD 1, day := 1, zoneName := f.zoneName } := by
  have hp := daysIn_pos (f.month.getD 1) f.year
  unfold timeParse
  simp only [h, hd, Option.getD_none]
  rw [if_neg (by omega)]

theorem parseChunks_step_year (pre : Str) (rest : Layout) (v v' : Str) (f : Fields)
    (a b c d : Char) (hs : skip v pre = some (a :: b :: c :: d :: v'))
    (h : isDigit a = true ∧ isDigit b = true ∧ isDigit c = true ∧ isDigit d = true) :
    parseChunks ((pre, Std.longYear) :: rest) v f =
      parseChunks rest v'
        { f with year := ((digitVal a * 10 + digitVal b) * 10 + digitVal c) * 10 + digitVal d } := by
  simp only [parseChunks, hs, h, and_self, if_true]

theorem parseChunks_step_month (pre : Str) (rest : Layout) (v v1 v2 : Str) (f : Fields)
    (m : Nat) (hs : skip v pre = some v1) (hg : getnum v1 = some (m, v2))
    (hm : ¬ (m = 0 ∨ 12 < m)) :
    parseChunks ((pre, Std.numMonth) :: rest) v f
      = parseChunks rest v2 { f with month := some m } := by
  simp only [parseChunks, hs, hg, hm, if_false]

theorem parseChunks_step_tz (pre : Str) (rest : Layout) (v v1 : Str) (f : Fields)
    (n : Nat) (hs : skip v pre = some v1) (hu : v1.take 3 ≠ "UTC".toList)
    (hz : parseTimeZone v1 = some n) :
    parseChunks ((pre, Std.tz) :: rest) v f
      = parseChunks rest (v1.drop n) { f with zoneName := v1.take n } := by
  simp only [parseChunks, hs, hu, hz, if_false]

theorem parseChunks_yearMonth (a b c d : Char) (mt : Str)
    (ha : isDigit a = true) (hb : isDigit b = true) (hc : isDigit c = true)
    (hd : isDigit d = true) (hlen : mt.length = 1 ∨ mt.length = 2)
    (hmt : ∀ x ∈ mt, isDigit x = true)
    (h1 : 1 ≤ decimalValue mt) (h12 : decimalValue mt ≤ 12) :
    parseChunks layoutYearMonth (a :: b :: c :: d :: '年' :: (mt ++ "月 JST".toList)) {}
      = some ([], { year := decimalValue [a, b, c, d], month := some (decimalValue mt),
                    day := none, zoneName := "JST".toList }) := by
  have hy : ((digitVal a * 10 + digitVal b) * 10 + digitVal c) * 10 + digitVal d
      = decimalValue [a, b, c, d] := by simp [decimalValue]
  have htz : parseTimeZone "JST".toList = some 3 := by decide
  have hm : isDigit '月' = false := by decide
  have hsk : skip "月 JST".toList "月 ".toList = some "JST".toList := by decide
  have hg : getnum (mt ++ "月 JST".toList) = some (decimalValue mt, "月 JST".toList) := by
    match mt, hlen, hmt with
    | [e], _, hmt =>
      have he : isDigit e = true := hmt e (by simp)
      simp [getnum, he, hm, decimalValue]
    | [e, g], _, hmt =>
      have he : isDigit e = true := hmt e (by simp)
      have hg : isDigit g = true := hmt g (by simp)
      simp [getnum, he, hg, decimalValue]
  have hsy : ∀ v : Str, skip ('年' :: v) "年".toList = some v := by
    intro v; simp [skip, skipAux]
  rw [layoutYearMonth,
    parseChunks_step_year [] _ _ _ _ a b c d rfl ⟨ha, hb, hc, hd⟩,
    parseChunks_step_month _ _ _ _ _ _ _ (hsy _) hg (by omega),
    parseChunks_step_tz _ _ _ _ _ 3 hsk (by decide) htz, hy]
  rfl

/-- C9: for a year of four digits and a month text of one or two digits of
value 1 to 12, `extractConstructionDateFromSelection` succeeds on
`<year>年<month>月予定` and on `<year>年<month>月` with the same result:
`Time.String` of midnight of the first day of that month of that year, in the
zone `JST`. -/
theorem extractConstructionDate_planned {F : Type} (env : Env F) (s s' : Selection)
    (y mt : Str) (hy : y.length = 4) (hyd : ∀ c ∈ y, isDigit c = true)
    (hlen : mt.length = 1 ∨ mt.length = 2) (hmt : ∀ c ∈ mt, isDigit c = true)
    (h1 : 1 ≤ decimalValue mt) (h12 : decimalValue mt ≤ 12)
    (hs : s.constructionDateText = y ++ "年".toList ++ mt ++ "月予定".toList)
    (hs' : s'.constructionDateText = y ++ "年".toList ++ mt ++ "月".toList) :
    extractConstructionDateFromSelection env s
        = .ok (env.timeString ⟨decimalValue y, decimalValue mt, 1, "JST".toList⟩)
      ∧ extractConstructionDateFromSelection env s'
        = .ok (env.timeString ⟨decimalValue y, decimalValue mt, 1, "JST".toList⟩) := by
  match y, hy, hyd with
  | [a, b, c, d], _, hyd =>
    have ha : isDigit a = true := hyd a (by simp)
    have hb : isDigit b = true := hyd b (by simp)
    have hc : isDigit c = true := hyd c (by simp)
    have hd : isDigit d = true := hyd d (by simp)
    -- the text without the qualifier
    let x : Str := a :: b :: c :: d :: '年' :: (mt ++ ['月'])
    have hx1 : [a, b, c, d] ++ "年".toList ++ mt ++ "月予定".toList = x ++ "予定".toList := by
      simp [x]
    have hx2 : [a, b, c, d] ++ "年".toList ++ mt ++ "月".toList = x := by simp [x]
    have hxne : x ≠ [] := by simp [x]
    have hxlast : ∀ xs e, x = xs ++ [e] → e = '月' := by
      intro xs e h
      exact last_of_append xs (a :: b :: c :: d :: '年' :: mt) e '月' (by rw [← h]; simp [x])
    have hxhead : ∀ e es, x = e :: es → e = a := by
      intro e es h; exact ((List.cons.inj h).1).symm
    have hcut : ∀ e, isDigit e = true → "予定".toList.contains e = false := by
      intro e he
      have h1 := isDigit_ne e '予' he (by decide)
      have h2 := isDigit_ne e '定' he (by decide)
      simp [h1, h2]
    have hT1 : Trim x "予定".toList = x := by
      have := Trim_suffix_cut x [] "予定".toList hxne
        (fun e es h => by rw [hxhead e es h]; exact hcut a ha)
        (fun xs e h => by rw [hxlast xs e h]; decide) (by simp)
      simpa using this
    have hT2 : Trim (x ++ "予定".toList) "予定".toList = x :=
      Trim_suffix_cut x _ "予定".toList hxne
        (fun e es h => by rw [hxhead e es h]; exact hcut a ha)
        (fun xs e h => by rw [hxlast xs e h]; decide) (by decide)
    have hS1 : TrimSpace x = x :=
      TrimSpace_id x (fun e es h => by rw [hxhead e es h]; exact isDigit_not_space a ha)
        (fun xs e h => by rw [hxlast xs e h]; decide)
    have hS2 : TrimSpace (x ++ "予定".toList) = x ++ "予定".toList :=
      TrimSpace_id _ (fun e es h => by
          have : e = a := by simp [x] at h; exact h.1.symm
          rw [this]; exact isDigit_not_space a ha)
        (fun xs e h => by
          have : e = '定' :=
            last_of_append xs (x ++ ['予']) e '定' (by rw [← h]; simp)
          rw [this]; decide)
    have hparse : timeParse layoutYearMonth (x ++ " JST".toList)
        = .ok ⟨decimalValue [a, b, c, d], decimalValue mt, 1, "JST".toList⟩ := by
      have e : x ++ " JST".toList = a :: b :: c :: d :: '年' :: (mt ++ "月 JST".toList) := by
        simp [x]
      rw [e, timeParse_of_chunks _ _ _
        (parseChunks_yearMonth a b c d mt ha hb hc hd hlen hmt h1 h12) rfl]
      rfl
    have hne1 : x ++ "予定".toList ≠ [] := by simp [x]
    constructor
    · rw [extractConstructionDate_unfold, constructionDateStringOf, hs, hx1, if_neg hne1, hS2, hT2,
        hparse]
    · rw [extractConstructionDate_unfold, constructionDateStringOf, hs', hx2, if_neg hxne, hS1, hT1,
        hparse]

/-- Witness of C9: `2015年3月予定` and `2015年3月` both give March 2015. -/
theorem extractConstructionDate_planned_witness :
    extractConstructionDateFromSelection sampleEnv sampleDocument.detailTable
        = .ok "2015-03-01 00:00:00 +0000 JST".toList
      ∧ extractConstructionDateFromSelection sampleEnv dateTable
        = .ok "2015-03-01 00:00:00 +0000 JST".toList :=
  extractConstructionDate_planned sampleEnv sampleDocument.detailTable dateTable
    "2015".toList "3".toList (by decide) (by decide) (by decide) (by decide) (by decide)
    (by decide) (by decide) (by decide)

theorem parseChunks_inv_year (pre : Str) (rest : Layout) (v : Str) (f : Fields)
    (out : Str × Fields) (h : parseChunks ((pre, Std.longYear) :: rest) v f = some out) :
    ∃ a b c d v', skip v pre = some (a :: b :: c :: d :: v')
      ∧ (isDigit a = true ∧ isDigit b = true ∧ isDigit c = true ∧ isDigit d = true)
      ∧ parseChunks rest v'
          { f with year := ((digitVal a * 10 + digitVal b) * 10 + digitVal c) * 10 + digitVal d }
        = some out := by
  cases hs : skip v pre with
  | none => simp [parseChunks, hs] at h
  | some v1 =>
    match v1, hs with
    | [], hs => simp [parseChunks, hs] at h
    | [_], hs => simp [parseChunks, hs] at h
    | [_, _], hs => simp [parseChunks, hs] at h
    | [_, _, _], hs => simp [parseChunks, hs] at h
    | a :: b :: c :: d :: v', hs =>
      simp only [parseChunks, hs] at h
      by_cases hdig : isDigit a = true ∧ isDigit b = true ∧ isDigit c = true ∧ isDigit d = true
      · rw [if_pos hdig] at h
        exact ⟨a, b, c, d, v', rfl, hdig, h⟩
      · rw [if_neg hdig] at h
        exact Option.noConfusion h

theorem parseChunks_inv_month (pre : Str) (rest : Layout) (v : Str) (f : Fields)
    (out : Str × Fields) (h : parseChunks ((pre, Std.numMonth) :: rest) v f = some out) :
    ∃ v1 m v2, skip v pre = some v1 ∧ getnum v1 = some (m, v2) ∧ 1 ≤ m ∧ m ≤ 12
      ∧ parseChunks rest v2 { f with month := some m } = some out := by
  cases hs : skip v pre with
  | none => simp [parseChunks, hs] at h
  | some v1 =>
    cases hg : getnum v1 with
    | none => simp [parseChunks, hs, hg] at h
    | some mv =>
      obtain ⟨m, v2⟩ := mv
      simp only [parseChunks, hs, hg] at h
      by_cases hm : m = 0 ∨ 12 < m
      · rw [if_pos hm] at h; exact Option.noConfusion h
      · rw [if_neg hm] at h
        exact ⟨v1, m, v2, rfl, hg, by omega, by omega, h⟩

theorem parseChunks_inv_tz (pre : Str) (v : Str) (f f' : Fields)
    (h : parseChunks [(pre, Std.tz)] v f = some ([], f')) :
    ∃ v1, skip v pre = some v1
      ∧ ((v1.take 3 = "UTC".toList ∧ v1.drop 3 = [])
        ∨ ∃ n, parseTimeZone v1 = some n ∧ v1.drop n = []) := by
  cases hs : skip v pre with
  | none => simp [parseChunks, hs] at h
  | some v1 =>
    refine ⟨v1, rfl, ?_⟩
    simp only [parseChunks, hs] at h
    by_cases hu : v1.take 3 = "UTC".toList
    · rw [if_pos hu] at h
      left
      exact ⟨hu, (Prod.mk.inj (Option.some.inj h)).1⟩
    · rw [if_neg hu] at h
      right
      cases hz : parseTimeZone v1 with
      | none => simp [hz] at h
      | some n =>
        simp only [hz] at h
        exact ⟨n, rfl, (Prod.mk.inj (Option.some.inj h)).1⟩

theorem timeParse_ok_chunks (layout : Layout) (value : Str) (t : Time)
    (h : timeParse layout value = .ok t) :
    ∃ f, parseChunks layout value {} = some ([], f) := by
  unfold timeParse at h
  cases hp : parseChunks layout value {} with
  | none => simp [hp] at h
  | some rf =>
    obtain ⟨rest, f⟩ := rf
    cases rest with
    | nil => exact ⟨f, rfl⟩
    | cons x xs => simp [hp] at h

theorem digitRun_whole : ∀ w : Str, w.length ≤ digitRun w → ∀ c ∈ w, isDigit c = true := by
  intro w
  induction w with
  | nil => intro _ c hc; simp at hc
  | cons x w ih =>
    intro h c hc
    by_cases hx : isDigit x = true
    · simp only [digitRun, hx, if_true, List.length_cons] at h
      rcases List.mem_cons.mp hc with h1 | h1
      · rw [h1]; exact hx
      · exact ih (by omega) c h1
    · simp [digitRun, hx] at h

theorem upperRun_whole :
    ∀ (fuel : Nat) (w : Str), w.length ≤ upperRun fuel w →
      ∀ c ∈ w, 65 ≤ c.toNat ∧ c.toNat ≤ 90 := by
  intro fuel
  induction fuel with
  | zero =>
    intro w h c hc
    cases w with
    | nil => simp at hc
    | cons x w => simp [upperRun] at h
  | succ fuel ih =>
    intro w h c hc
    cases w with
    | nil => simp at hc
    | cons x w =>
      by_cases hx : 65 ≤ x.toNat ∧ x.toNat ≤ 90
      · simp only [upperRun, hx, and_self, if_true, List.length_cons] at h
        rcases List.mem_cons.mp hc with h1 | h1
        · rw [h1]; exact hx
        · exact ih w (by omega) c h1
      · simp only [upperRun, hx, if_false, List.length_cons] at h
        omega

theorem parseSignedOffset_whole (w : Str) (hne : w ≠ [])
    (h : w.length ≤ parseSignedOffset w) : ∀ c ∈ w, c ≠ ' ' := by
  cases w with
  | nil => exact absurd rfl hne
  | cons sign rest =>
    have hlen : rest.length + 1 ≤ parseSignedOffset (sign :: rest) := by simpa using h
    unfold parseSignedOffset at hlen
    by_cases hs : sign = '-' ∨ sign = '+'
    · simp only [hs, if_true] at hlen
      have hrun : rest.length ≤ digitRun rest := by
        by_cases h0 : digitRun rest = 0
        · simp [h0] at hlen
        · simp only [h0, if_false] at hlen
          cases hv : digitsValue (rest.take (digitRun rest)) 0 with
          | none => simp [hv] at hlen
          | some x =>
            simp only [hv] at hlen
            by_cases hx : x > 23
            · simp [hx] at hlen
            · simp only [hx, if_false] at hlen
              omega
      intro c hc
      rcases List.mem_cons.mp hc with h1 | h1
      · rw [h1]; rcases hs with hs | hs <;> rw [hs] <;> decide
      · exact isDigit_ne c ' ' (digitRun_whole rest hrun c h1) (by decide)
    · simp [hs] at hlen

theorem tz_whole (v : Str)
    (h : (v.take 3 = "UTC".toList ∧ v.drop 3 = [])
      ∨ ∃ n, parseTimeZone v = some n ∧ v.drop n = []) :
    3 ≤ v.length ∧ ∀ c ∈ v, c ≠ ' ' := by
  have hlit : ∀ (k : Nat) (t : Str), v.take k = t → v.drop k = [] → v = t := by
    intro k t h1 h2
    have := List.take_append_drop k v
    rw [h1, h2, List.append_nil] at this
    exact this.symm
  rcases h with ⟨h1, h2⟩ | ⟨n, hz, hd⟩
  · rw [hlit 3 _ h1 h2]; decide
  · unfold parseTimeZone at hz
    by_cases hl : v.length < 3
    · simp [hl] at hz
    · rw [if_neg hl] at hz
      refine ⟨by omega, ?_⟩
      have hdn : v.length ≤ n := List.drop_eq_nil_iff.mp hd
      by_cases h4 : v.take 4 = "ChST".toList ∨ v.take 4 = "MeST".toList
      · rw [if_pos h4] at hz
        have hn : n = 4 := (Option.some.inj hz).symm
        subst hn
        rcases h4 with h4 | h4 <;> rw [hlit 4 _ h4 hd] <;> decide
      · rw [if_neg h4] at hz
        by_cases hg : v.take 3 = "GMT".toList
        · rw [if_pos hg] at hz
          by_cases hl3 : v.length = 3
          · have : v = "GMT".toList :=
              hlit 3 _ hg (List.drop_eq_nil_iff.mpr (by omega))
            rw [this]; decide
          · rw [if_neg hl3] at hz
            have hn : n = 3 + parseSignedOffset (v.drop 3) := (Option.some.inj hz).symm
            have hdl : (v.drop 3).length = v.length - 3 := List.length_drop 3 v
            have hw := parseSignedOffset_whole (v.drop 3)
              (by intro h0; rw [h0] at hdl; simp at hdl; omega) (by omega)
            intro c hc
            rw [← List.take_append_drop 3 v, hg] at hc
            rcases List.mem_append.mp hc with h1 | h1
            · intro hsp; rw [hsp] at h1; revert h1; decide
            · exact hw c h1
        · rw [if_neg hg] at hz
          by_cases hsg : v.head? = some '+' ∨ v.head? = some '-'
          · rw [if_pos hsg] at hz
            by_cases hp : parseSignedOffset v > 0
            · rw [if_pos hp] at hz
              have hn : n = parseSignedOffset v := (Option.some.inj hz).symm
              exact parseSignedOffset_whole v (by intro h0; rw [h0] at hl; simp at hl)
                (by omega)
            · rw [if_neg hp] at hz; exact Option.noConfusion hz
          · rw [if_neg hsg] at hz
            have hup : v.length ≤ upperRun 6 v := by
              split at hz
              · rename_i hu
                split_ifs at hz
                have hn : n = 5 := (Option.some.inj hz).symm
                omega
              · rename_i hu
                split_ifs at hz
                have hn : n = 4 := (Option.some.inj hz).symm
                omega
              · rename_i hu
                have hn : n = 3 := (Option.some.inj hz).symm
                omega
              · exact Option.noConfusion hz
            intro c hc hsp
            have := upperRun_whole 6 v hup c hc
            rw [hsp] at this
            revert this; decide

theorem skip_lit_inv (c : Char) (hc : c ≠ ' ') (v v' : Str) (h : skip v [c] = some v') :
    v = c :: v' := by
  cases v with
  | nil => simp [skip, skipAux, hc] at h
  | cons x xs =>
    by_cases hx : x = c
    · simp only [skip, skipAux, hc, if_false, hx, if_true, Option.some.injEq] at h
      rw [hx, h]
    · simp [skip, skipAux, hc, hx] at h

theorem skip_lit_space_inv (c : Char) (hc : c ≠ ' ') (v v' : Str)
    (h : skip v [c, ' '] = some v') :
    ∃ w, v = c :: w ∧ ((w = [] ∧ v' = []) ∨ ∃ w', w = ' ' :: w' ∧ v' = cutspace w') := by
  cases v with
  | nil => simp [skip, skipAux, hc] at h
  | cons x xs =>
    by_cases hx : x = c
    · refine ⟨xs, by rw [hx], ?_⟩
      cases xs with
      | nil =>
        simp only [skip, skipAux, hc, if_false, hx, if_true, Bool.false_eq_true,
          Option.some.injEq] at h
        exact Or.inl ⟨rfl, h.symm⟩
      | cons y ys =>
        by_cases hy : y = ' '
        · simp only [skip, skipAux, hc, if_false, hx, if_true, Bool.false_eq_true, hy,
            Option.some.injEq] at h
          exact Or.inr ⟨ys, by rw [hy], h.symm⟩
        · simp [skip, skipAux, hc, hx, hy] at h
    · simp [skip, skipAux, hc, hx] at h

theorem cutspace_spec : ∀ w : Str, ∃ sp : Str, (∀ c ∈ sp, c = ' ') ∧ w = sp ++ cutspace w := by
  intro w
  induction w with
  | nil => exact ⟨[], by simp, rfl⟩
  | cons x w ih =>
    by_cases hx : x = ' '
    · obtain ⟨sp, h1, h2⟩ := ih
      refine ⟨' ' :: sp, ?_, ?_⟩
      · intro c hc
        rcases List.mem_cons.mp hc with h | h
        · exact h
        · exact h1 c h
      · simp only [cutspace, hx, if_true, List.cons_append]
        rw [← h2]
    · exact ⟨[], by simp, by simp [cutspace, hx]⟩

theorem spaces_comm : ∀ sp : Str, (∀ c ∈ sp, c = ' ') → ' ' :: sp = sp ++ [' '] := by
  intro sp
  induction sp with
  | nil => intro _; rfl
  | cons x sp ih =>
    intro h
    have hx : x = ' ' := h x (List.mem_cons_self x sp)
    have := ih fun c hc => h c (List.mem_cons_of_mem x hc)
    rw [List.cons_append, ← this, hx]

theorem getnum_inv (v v2 : Str) (m : Nat) (h : getnum v = some (m, v2)) :
    ∃ mt : Str, v = mt ++ v2 ∧ (mt.length = 1 ∨ mt.length = 2)
      ∧ (∀ c ∈ mt, isDigit c = true) ∧ decimalValue mt = m
      ∧ (mt.length = 1 → ∀ c cs, v2 = c :: cs → isDigit c = false) := by
  cases v with
  | nil => simp [getnum] at h
  | cons a rest =>
    by_cases ha : isDigit a = true
    · cases rest with
      | nil =>
        simp only [getnum, ha, if_true, Option.some.injEq, Prod.mk.injEq] at h
        exact ⟨[a], by rw [← h.2]; rfl, Or.inl rfl, by simpa using ha,
          by simp [decimalValue, h.1], by intro _ c cs hc; rw [← h.2] at hc; simp at hc⟩
      | cons b rest2 =>
        by_cases hb : isDigit b = true
        · simp only [getnum, ha, hb, if_true, Option.some.injEq, Prod.mk.injEq] at h
          exact ⟨[a, b], by rw [← h.2]; rfl, Or.inr rfl, by simp [ha, hb],
            by simp [decimalValue, h.1], by intro hl; simp at hl⟩
        · simp only [getnum, ha, hb, if_true, Bool.false_eq_true, if_false, Option.some.injEq,
            Prod.mk.injEq] at h
          refine ⟨[a], by rw [← h.2]; rfl, Or.inl rfl, by simpa using ha,
            by simp [decimalValue, h.1], ?_⟩
          intro _ c cs hc
          rw [← h.2] at hc
          rw [← (List.cons.inj hc).1]
          simpa using hb
    · simp [getnum, ha] at h

/-- What `time.Parse` with the layout `2006年1月 MST` accepts before ` JST`:
the form `<year>年<month>月`, possibly followed by spaces. -/
theorem timeParse_yearMonth_form (cds : Str) (t : Time)
    (h : timeParse layoutYearMonth (cds ++ " JST".toList) = .ok t) :
    isYearMonth true cds = true := by
  obtain ⟨f, hf⟩ := timeParse_ok_chunks _ _ _ h
  rw [layoutYearMonth] at hf
  obtain ⟨a, b, c, d, v', hs1, ⟨ha, hb, hc, hd⟩, hf2⟩ := parseChunks_inv_year _ _ _ _ _ hf
  have hv : cds ++ " JST".toList = a :: b :: c :: d :: v' := Option.some.inj hs1
  obtain ⟨v1, m, v2, hs2, hg, hm1, hm12, hf3⟩ := parseChunks_inv_month _ _ _ _ _ hf2
  have hv' : v' = '年' :: v1 := skip_lit_inv '年' (by decide) _ _ hs2
  obtain ⟨v3, hs3, htz⟩ := parseChunks_inv_tz _ _ _ _ hf3
  obtain ⟨hlen3, hnosp⟩ := tz_whole v3 htz
  obtain ⟨w, hv2, hw⟩ := skip_lit_space_inv '月' (by decide) _ _ hs3
  obtain ⟨mt, hv1, hmtlen, hmtd, hmtv, _⟩ := getnum_inv _ _ _ hg
  rcases hw with ⟨_, h0⟩ | ⟨w', hw', hv3⟩
  · rw [h0] at hlen3; simp at hlen3
  · obtain ⟨sp, hsp, hspw⟩ := cutspace_spec w'
    rw [← hv3] at hspw
    -- the whole text, cut at the zone abbreviation
    have hL : cds ++ " JST".toList
        = (a :: b :: c :: d :: '年' :: (mt ++ '月' :: ' ' :: sp)) ++ v3 := by
      rw [hv, hv', hv1, hv2, hw', hspw]; simp
    have hsuf1 : v3 <:+ cds ++ " JST".toList := ⟨_, hL.symm⟩
    have hsuf2 : " JST".toList <:+ cds ++ " JST".toList := ⟨cds, rfl⟩
    have hv3eq : v3 = "JST".toList := by
      rcases List.suffix_or_suffix_of_suffix hsuf2 hsuf1 with h1 | h1
      · exact absurd rfl (hnosp ' ' (h1.subset (by decide)))
      · rcases List.suffix_cons_iff.mp h1 with h2 | h2
        · rw [h2] at hnosp
          exact absurd rfl (hnosp ' ' (by decide))
        · exact h2.eq_of_length (le_antisymm h2.length_le hlen3)
    rw [hv3eq] at hL
    have hL2 : (cds ++ [' ']) ++ "JST".toList
        = (a :: b :: c :: d :: '年' :: (mt ++ '月' :: ' ' :: sp)) ++ "JST".toList := by
      rw [← hL]; simp
    have hcds := (List.append_inj' hL2 rfl).1
    rw [spaces_comm sp hsp] at hcds
    have hcds2 : cds ++ [' '] = (a :: b :: c :: d :: '年' :: (mt ++ '月' :: sp)) ++ [' '] := by
      rw [hcds]; simp
    have hfin := (List.append_inj' hcds2 rfl).1
    rw [hfin]
    have hnen : isDigit '年' = false := by decide
    have hgetsu : isDigit '月' = false := by decide
    have hspall : sp.all (fun c => c == ' ') = true := by
      rw [List.all_eq_true]; intro c hc; simp [hsp c hc]
    match mt, hmtlen, hmtd, hmtv with
    | [e], _, hmtd, hmtv =>
      have he : isDigit e = true := hmtd e (by simp)
      simp [isYearMonth, List.takeWhile, ha, hb, hc, hd, he, hnen, hgetsu, hmtv, hm1, hm12, hspall]
    | [e, g], _, hmtd, hmtv =>
      have he : isDigit e = true := hmtd e (by simp)
      have hg : isDigit g = true := hmtd g (by simp)
      simp [isYearMonth, List.takeWhile, ha, hb, hc, hd, he, hg, hnen, hgetsu, hmtv, hm1, hm12,
        hspall]

/-- C10, as stated, fails: on the value text `2015年3月 予定` the text left by
the two trims is `2015年3月` followed by a space, which is not of the form
`<year>年<month>月`, and `extractConstructionDateFromSelection` returns March
2015 with no error. -/
theorem extractConstructionDate_form_counterexample :
    constructionDateStringOf dateTableSpaced = "2015年3月 ".toList
      ∧ isYearMonth false "2015年3月 ".toList = false
      ∧ extractConstructionDateFromSelection sampleEnv dateTableSpaced
        = .ok "2015-03-01 00:00:00 +0000 JST".toList := by
  decide

/-- C10, amended: `extractConstructionDateFromSelection` returns an error and
no date for every value text that, trimmed of white space and of the
characters of `予定`, is not four digits, `年`, one or two digits of value 1 to
12, `月`, and then spaces only. -/
theorem extractConstructionDate_error {F : Type} (env : Env F) (s : Selection)
    (hform : isYearMonth true (constructionDateStringOf s) = false) :
    ∃ e, extractConstructionDateFromSelection env s = .error e := by
  rw [extractConstructionDate_unfold]
  by_cases h0 : s.constructionDateText = []
  · exact ⟨_, if_pos h0⟩
  · rw [if_neg h0]
    cases hp : timeParse layoutYearMonth (constructionDateStringOf s ++ " JST".toList) with
    | error e => exact ⟨e, rfl⟩
    | ok t =>
      rw [timeParse_yearMonth_form _ t hp] at hform
      exact Bool.noConfusion hform

/-- Witness of the amended C10: the month 13. -/
theorem extractConstructionDate_error_witness :
    ∃ e, extractConstructionDateFromSelection sampleEnv dateTableMonth13 = .error e :=
  extractConstructionDate_error sampleEnv dateTableMonth13 (by decide)

/-! ## The record -/

theorem bind_ok_iff {α β : Type} (r : GoResult α) (f : α → GoResult β) (b : β) :
    r.bind f = .ok b ↔ ∃ v, r = .ok v ∧ f v = .ok b := by
  cases r with
  | ok v => simp [GoResult.bind]
  | error e => simp [GoResult.bind]
  | panic => simp [GoResult.bind]

theorem bind_void_step {α β : Type} (r : GoResult α) (f : α → GoResult β)
    (rest : List (GoResult Unit)) (h : ∀ v, r = .ok v → (f v).void = firstNonOk rest) :
    (r.bind f).void = firstNonOk (r.void :: rest) := by
  cases r with
  | ok v => simpa [GoResult.bind, GoResult.void, firstNonOk] using h v rfl
  | error e => rfl
  | panic => rfl

theorem firstNonOk_panic_mem :
    ∀ l : List (GoResult Unit), firstNonOk l = .panic → GoResult.panic ∈ l := by
  intro l
  induction l with
  | nil => intro h; simp [firstNonOk] at h
  | cons r l ih =>
    intro h
    cases r with
    | ok v => exact List.mem_cons_of_mem _ (ih (by simpa [firstNonOk] using h))
    | error e => simp [firstNonOk] at h
    | panic => exact List.mem_cons_self _ _

theorem Parse_void {F : Type} (env : Env F) (u : URL) (doc : Document)
    (hfetch : env.NewDocument u.str = .ok doc) :
    (Parse env u).void = firstNonOk (outcomes env u doc) := by
  unfold Parse outcomes
  rw [hfetch]
  simp only [GoResult.ofExcept, GoResult.bind, Document.findTable]
  refine bind_void_step _ _ _ fun _ _ => ?_
  refine bind_void_step _ _ _ fun _ _ => ?_
  refine bind_void_step _ _ _ fun _ _ => ?_
  refine bind_void_step _ _ _ fun _ _ => ?_
  refine bind_void_step _ _ _ fun _ _ => ?_
  refine bind_void_step _ _ _ fun _ _ => ?_
  refine bind_void_step _ _ _ fun _ _ => ?_
  refine bind_void_step _ _ _ fun _ _ => ?_
  refine bind_void_step _ _ _ fun _ _ => ?_
  refine bind_void_step _ _ _ fun _ _ => ?_
  rfl

theorem Parse_ok_iff {F : Type} (env : Env F) (u : URL) (doc : Document)
    (hfetch : env.NewDocument u.str = .ok doc) (p : PropertyInformation F) :
    Parse env u = .ok p ↔
      extractIDFromURL u = .ok p.ID
      ∧ extractPostingDateFromDocument env doc = .ok p.PostingDate
      ∧ extractNameFromSelection doc.detailTable = .ok p.Name
      ∧ extractPriceFromSelection doc.detailTable = .ok p.Price
      ∧ extractFloorPlanFromSelection doc.detailTable = .ok p.FloorPlan
      ∧ extractLandAreaFromSelection env doc.detailTable = .ok p.LandArea
      ∧ extractBuildingAreaFromSelection env doc.detailTable = .ok p.BuildingArea
      ∧ extractConstructionDateFromSelection env doc.detailTable = .ok p.ConstructionDate
      ∧ extractAddressFromSelection doc.detailTable = .ok p.Address
      ∧ extractTrafficFromSelection doc.detailTable = .ok p.Traffic := by
  unfold Parse
  rw [hfetch]
  simp only [GoResult.ofExcept, Document.findTable, bind_ok_iff, GoResult.ok.injEq,
    exists_eq_left']
  constructor
  · rintro ⟨v1, h1, v2, h2, v3, h3, v4, h4, v5, h5, v6, h6, v7, h7, v8, h8, v9, h9, v10, h10, hp⟩
    subst hp
    exact ⟨h1, h2, h3, h4, h5, h6, h7, h8, h9, h10⟩
  · rintro ⟨h1, h2, h3, h4, h5, h6, h7, h8, h9, h10⟩
    exact ⟨_, h1, _, h2, _, h3, _, h4, _, h5, _, h6, _, h7, _, h8, _, h9, _, h10, rfl⟩

theorem firstNonOk_ok_iff :
    ∀ l : List (GoResult Unit), firstNonOk l = .ok () ↔ ∀ r ∈ l, r = .ok () := by
  intro l
  induction l with
  | nil => simp [firstNonOk]
  | cons r l ih =>
    cases r with
    | ok v => simp [firstNonOk, ih]
    | error e => simp [firstNonOk]
    | panic => simp [firstNonOk]

/-- C1: for every URL and fetched document, the outcome of `Parse` is that of
the first extractor that does not succeed, in the order ID, posting date, name,
price, floor plan, land area, building area, construction date, address,
traffic. `Parse` returns a record exactly when the ten extractors succeed, and
each field then holds the value of its extractor; it returns no record and,
unchanged, the error of that first extractor when it returns an error, whatever
the later extractors would do; and it faults, returning neither a record nor an
error, when that first extractor faults on the index of its match result. -/
theorem Parse_fail_fast {F : Type} (env : Env F) (u : URL) (doc : Document)
    (hfetch : env.NewDocument u.str = .ok doc) :
    ((∃ p, Parse env u = .ok p) ↔ ∀ r ∈ outcomes env u doc, r = .ok ())
      ∧ (∀ p, Parse env u = .ok p ↔
          extractIDFromURL u = .ok p.ID
          ∧ extractPostingDateFromDocument env doc = .ok p.PostingDate
          ∧ extractNameFromSelection doc.detailTable = .ok p.Name
          ∧ extractPriceFromSelection doc.detailTable = .ok p.Price
          ∧ extractFloorPlanFromSelection doc.detailTable = .ok p.FloorPlan
          ∧ extractLandAreaFromSelection env doc.detailTable = .ok p.LandArea
          ∧ extractBuildingAreaFromSelection env doc.detailTable = .ok p.BuildingArea
          ∧ extractConstructionDateFromSelection env doc.detailTable = .ok p.ConstructionDate
          ∧ extractAddressFromSelection doc.detailTable = .ok p.Address
          ∧ extractTrafficFromSelection doc.detailTable = .ok p.Traffic)
      ∧ (∀ e, Parse env u = .error e ↔ firstNonOk (outcomes env u doc) = .error e)
      ∧ (Parse env u = .panic ↔ firstNonOk (outcomes env u doc) = .panic) := by
  have hv := Parse_void env u doc hfetch
  refine ⟨?_, Parse_ok_iff env u doc hfetch, ?_, ?_⟩
  · rw [← firstNonOk_ok_iff, ← hv]
    cases Parse env u <;> simp [GoResult.void]
  · intro e
    rw [← hv]
    cases Parse env u <;> simp [GoResult.void]
  · rw [← hv]
    cases Parse env u <;> simp [GoResult.void]

/-- Witness of C1: on the sample listing `Parse` returns the record of the
extractors' values; with a price in `円` and a land area without `m2` it returns
the error of the price extractor, the first to fail; with a URL without the
`nc_` segment the ID extractor faults and `Parse` faults with it. -/
theorem Parse_fail_fast_witness :
    Parse sampleEnv sampleURL = .ok sampleRecord
      ∧ Parse envPriceThenFault sampleURL = .error (.priceSuffix "5000円".toList)
      ∧ Parse sampleEnv urlNoID = .panic :=
  ⟨((Parse_fail_fast sampleEnv sampleURL sampleDocument rfl).2.1 sampleRecord).mpr (by decide),
   ((Parse_fail_fast envPriceThenFault sampleURL documentPriceThenFault rfl).2.2.1 _).mpr
     (by decide),
   (Parse_fail_fast sampleEnv urlNoID sampleDocument rfl).2.2.2.mpr (by decide)⟩

/-! ## The traffic lines -/

/-- C11: `extractTrafficFromSelection` returns an error or a non-empty
sequence: the texts of the blocks of the traffic cell, all of them and in
document order, when there is at least one block, and an error when there is
none. -/
theorem extractTraffic_blocks (s : Selection) :
    (s.trafficTexts ≠ [] → extractTrafficFromSelection s = .ok s.trafficTexts)
      ∧ (s.trafficTexts = [] →
          extractTrafficFromSelection s = .error (.notFound "交通".toList))
      ∧ (∀ v, extractTrafficFromSelection s = .ok v → v ≠ [] ∧ v = s.trafficTexts) := by
  unfold extractTrafficFromSelection
  cases h : s.trafficTexts with
  | nil => simp
  | cons x xs => simp

/-- Witness of C11: three blocks give the three texts in order. -/
theorem extractTraffic_blocks_witness :
    extractTrafficFromSelection trafficTable
      = .ok ["JR山手線「新宿」歩5分".toList, "都営新宿線「新宿」歩8分".toList,
          "小田急線「新宿」歩9分".toList] :=
  (extractTraffic_blocks trafficTable).1 (by decide)

/-! ## The detail table -/

/-- C12: the test `table == nil` of `Parse` never holds, so for a document
without detail table whose URL and posting date are read, `Parse` runs the
name extractor on the selection without nodes and returns its error, not the
error of the table. -/
theorem Parse_no_table {F : Type} (env : Env F) (u : URL) (doc : Document) (id pd : Str)
    (hfetch : env.NewDocument u.str = .ok doc)
    (hid : extractIDFromURL u = .ok id)
    (hpd : extractPostingDateFromDocument env doc = .ok pd)
    (htable : doc.detailTable = Selection.empty) :
    doc.findTable ≠ none
      ∧ extractNameFromSelection doc.detailTable = .error (.notFound "物件名".toList)
      ∧ Parse env u = .error (.notFound "物件名".toList) := by
  have hname : extractNameFromSelection doc.detailTable = .error (.notFound "物件名".toList) := by
    rw [htable]; rfl
  refine ⟨by simp [Document.findTable], hname, ?_⟩
  unfold Parse
  rw [hfetch]
  simp only [GoResult.ofExcept, GoResult.bind, hid, hpd, Document.findTable, hname]

/-- Witness of C12: the sample listing without its table. -/
theorem Parse_no_table_witness :
    documentNoTable.findTable ≠ none
      ∧ extractNameFromSelection documentNoTable.detailTable
        = .error (.notFound "物件名".toList)
      ∧ Parse envNoTable sampleURL = .error (.notFound "物件名".toList) :=
  Parse_no_table envNoTable sampleURL documentNoTable "87706145".toList
    "2016-08-21 00:00:00 +0000 JST".toList rfl (by decide) (by decide) rfl

/-! ## The posting date -/

theorem matchHere_lits_head (l : Str) (pat : Pattern) :
    ∀ (u : Str) (r : Str × Option Str), matchHere (lits l ++ pat) u = some r → l <+: u := by
  induction l with
  | nil => intro u r _; exact List.nil_prefix
  | cons c l ih =>
    intro u r h
    cases u with
    | nil => simp [lits, matchHere] at h
    | cons d u =>
      by_cases hd : d = c
      · subst hd
        have e : lits (d :: l) ++ pat = Item.lit d :: (lits l ++ pat) := rfl
        rw [e, matchHere_lit] at h
        cases hm : matchHere (lits l ++ pat) u with
        | none => rw [hm] at h; exact Option.noConfusion h
        | some r0 => exact (List.prefix_cons_inj d).mpr (ih u r0 hm)
      · simp [lits, matchHere, hd] at h

theorem regexFind_rePostingDate_marker (t : Str) (r : Str × Option Str)
    (h : regexFind rePostingDate t = some r) : "情報提供日：".toList <:+: t := by
  have h1 : (regexFind rePostingDate t).isSome = true := by rw [h]; rfl
  obtain ⟨u, hu, hm⟩ := (regexFind_isSome_iff rePostingDate t).mp h1
  cases hr : matchHere rePostingDate u with
  | none => rw [hr] at hm; exact Bool.noConfusion hm
  | some r0 =>
    have hp := matchHere_lits_head "情報提供日：".toList _ u r0 hr
    exact List.IsInfix.trans hp.isInfix hu.isInfix

/-- C13: on a document whose text does not hold the marker `情報提供日：`,
`extractPostingDateFromDocument` faults on the index of the empty match
result instead of returning an error. -/
theorem extractPostingDate_no_marker_faults {F : Type} (env : Env F) (d : Document)
    (hno : ¬ "情報提供日：".toList <:+: d.postingDateText) :
    extractPostingDateFromDocument env d = .panic := by
  have hnone : regexFind rePostingDate d.postingDateText = none := by
    cases hr : regexFind rePostingDate d.postingDateText with
    | none => rfl
    | some r => exact absurd (regexFind_rePostingDate_marker _ r hr) hno
  unfold extractPostingDateFromDocument FindStringSubmatch
  simp only [hnone, index, List.get?_nil, GoResult.bind]

/-- Witness of C13: the sample listing without the paragraph of the posting
date. -/
theorem extractPostingDate_no_marker_faults_witness :
    extractPostingDateFromDocument sampleEnv documentNoPostingDate = .panic :=
  extractPostingDate_no_marker_faults sampleEnv documentNoPostingDate (by decide)

/-! ## The name and the address -/

/-- C14, as stated, fails: on a name cell and an address cell that hold
white space only, `extractNameFromSelection` and `extractAddressFromSelection`
succeed and return the empty string. -/
theorem extractName_blank_counterexample :
    extractNameFromSelection blankTable = .ok []
      ∧ extractAddressFromSelection blankTable = .ok [] := by
  decide

/-- C14, amended: when `extractNameFromSelection`, and likewise
`extractAddressFromSelection`, succeeds, the text of the cell before trimming
is non-empty and the string returned is that text trimmed of white space. -/
theorem extractName_ok (s : Selection) (v : Str) :
    (extractNameFromSelection s = .ok v → s.nameText ≠ [] ∧ v = TrimSpace s.nameText)
      ∧ (extractAddressFromSelection s = .ok v →
          s.addressText ≠ [] ∧ v = TrimSpace s.addressText) := by
  constructor
  · intro h
    unfold extractNameFromSelection at h
    by_cases h0 : s.nameText = []
    · simp [h0] at h
    · simp only [h0, if_false, GoResult.ok.injEq] at h
      exact ⟨h0, h.symm⟩
  · intro h
    unfold extractAddressFromSelection at h
    by_cases h0 : s.addressText = []
    · simp [h0] at h
    · simp only [h0, if_false, GoResult.ok.injEq] at h
      exact ⟨h0, h.symm⟩

/-- Witness of the amended C14: the name and the address of the sample
listing. -/
theorem extractName_ok_witness :
    (sampleDocument.detailTable.nameText ≠ []
        ∧ "新宿の家".toList = TrimSpace sampleDocument.detailTable.nameText)
      ∧ (sampleDocument.detailTable.addressText ≠ []
        ∧ "東京都新宿区".toList = TrimSpace sampleDocument.detailTable.addressText) :=
  ⟨(extractName_ok sampleDocument.detailTable "新宿の家".toList).1 (by decide),
   (extractName_ok sampleDocument.detailTable "東京都新宿区".toList).2 (by decide)⟩

/-! ## The qualifier `億` and the sign of the price -/

theorem TrimSpace_of_ends (c e : Char) (mid : Str) (hc : isSpace c = false)
    (he : isSpace e = false) : TrimSpace (c :: (mid ++ [e])) = c :: (mid ++ [e]) := by
  apply TrimSpace_id
  · intro a as h; rw [← (List.cons.inj h).1]; exact hc
  · intro xs a h
    have : a = e := last_of_append xs (c :: mid) a e (by rw [← h]; simp)
    rw [this]; exact he

theorem digitsValue_stop :
    ∀ (d : Str) (c : Char) (rest : Str) (n : Nat), (∀ x ∈ d, isDigit x = true) →
      isDigit c = false → digitsValue (d ++ c :: rest) n = none := by
  intro d
  induction d with
  | nil => intro c rest n _ hc; simp [digitsValue, hc]
  | cons x d ih =>
    intro c rest n hd hc
    have hx := hd x (List.mem_cons_self x d)
    simp only [List.cons_append, digitsValue, hx, if_true]
    exact ih c rest _ (fun y hy => hd y (List.mem_cons_of_mem x hy)) hc

theorem digits_cut_manEn (c : Char) (hc : isDigit c = true) :
    "万円".toList.contains c = false := by
  have h1 := isDigit_ne c '万' hc (by decide)
  have h2 := isDigit_ne c '円' hc (by decide)
  simp [h1, h2]

theorem digits_cut_oku (c : Char) (hc : isDigit c = true) :
    "億".toList.contains c = false := by
  have h1 := isDigit_ne c '億' hc (by decide)
  simp [h1]

/-- The price read from a text that the two first trims leave as a run of
digits followed by `万円`. -/
theorem extractPrice_of_priceString (s : Selection) (d : Str)
    (hne : d ≠ []) (hdig : ∀ c ∈ d, isDigit c = true)
    (hrange : (decimalValue d : Int) * 10000 < 2 ^ 63)
    (h0 : s.priceText ≠ []) (hps : priceStringOf s = d ++ "万円".toList) :
    extractPriceFromSelection s = .ok ((decimalValue d : Int) * 10000) := by
  have hM : MatchString rePrice (d ++ "万円".toList) = true :=
    (MatchString_rePrice _).mpr ⟨d, rfl⟩
  have hT2 : Trim (d ++ "万円".toList) "万円".toList = d :=
    Trim_digits_suffix d _ _ hne hdig digits_cut_manEn (by decide)
  have hlt : decimalValue d < 2 ^ 63 := by
    have : (decimalValue d : Int) < 2 ^ 63 := by omega
    exact_mod_cast this
  have hW : wrapInt64 ((decimalValue d : Int) * 10000) = (decimalValue d : Int) * 10000 :=
    wrapInt64_of_range _ (by omega) hrange
  rw [extractPrice_unfold, if_neg h0, hps, if_pos hM, hT2, Atoi_digits d hne hdig, if_pos hlt]
  simp only [hW]

/-- C16: for a non-empty run `d` of ASCII digits whose value times 10000 fits
a 64-bit signed integer, the value text `億` followed by `d` and `万円` gives
that product, the same result as `d` followed by `万円`: the qualifier adds no
multiple of 100,000,000. -/
theorem extractPrice_oku_trimmed (s s' : Selection) (d : Str)
    (hne : d ≠ []) (hdig : ∀ c ∈ d, isDigit c = true)
    (hrange : (decimalValue d : Int) * 10000 < 2 ^ 63)
    (hs : s.priceText = "億".toList ++ d ++ "万円".toList)
    (hs' : s'.priceText = d ++ "万円".toList) :
    extractPriceFromSelection s = .ok ((decimalValue d : Int) * 10000)
      ∧ extractPriceFromSelection s' = .ok ((decimalValue d : Int) * 10000) := by
  cases d with
  | nil => exact absurd rfl hne
  | cons x xs =>
    have hx : isDigit x = true := hdig x (List.mem_cons_self x xs)
    have hxs : isSpace x = false := isDigit_not_space x hx
    have e1 : "億".toList ++ (x :: xs) ++ "万円".toList = '億' :: ((x :: xs ++ ['万']) ++ ['円']) := by
      simp
    have e2 : (x :: xs) ++ "万円".toList = x :: ((xs ++ ['万']) ++ ['円']) := by simp
    have hS1 : TrimSpace ('億' :: ((x :: xs ++ ['万']) ++ ['円']))
        = '億' :: ((x :: xs ++ ['万']) ++ ['円']) :=
      TrimSpace_of_ends '億' '円' _ (by decide) (by decide)
    have hS2 : TrimSpace (x :: ((xs ++ ['万']) ++ ['円'])) = x :: ((xs ++ ['万']) ++ ['円']) :=
      TrimSpace_of_ends x '円' _ hxs (by decide)
    have hT : Trim (x :: ((xs ++ ['万']) ++ ['円'])) "億".toList
        = x :: ((xs ++ ['万']) ++ ['円']) := by
      apply Trim_id
      · intro c cs h; rw [← (List.cons.inj h).1]; exact digits_cut_oku x hx
      · intro ys c h
        have : c = '円' := last_of_append ys (x :: (xs ++ ['万'])) c '円' (by rw [← h]; simp)
        rw [this]; decide
    have hT1 : Trim ('億' :: ((x :: xs ++ ['万']) ++ ['円'])) "億".toList
        = x :: ((xs ++ ['万']) ++ ['円']) := by
      have hl : trimLeftFunc (fun c => "億".toList.contains c)
          ('億' :: ((x :: xs ++ ['万']) ++ ['円']))
          = trimLeftFunc (fun c => "億".toList.contains c) (x :: ((xs ++ ['万']) ++ ['円'])) := by
        simp [trimLeftFunc]
      unfold Trim at hT ⊢
      rw [hl]; exact hT
    constructor
    · apply extractPrice_of_priceString s (x :: xs) hne hdig hrange
      · rw [hs]; simp
      · rw [priceStringOf, hs, e1, hS1, hT1, e2]
    · apply extractPrice_of_priceString s' (x :: xs) hne hdig hrange
      · rw [hs']; simp
      · rw [priceStringOf, hs', e2, hS2, hT]

/-- Witness of C16: `億5000万円` and `5000万円` both give 50000000. -/
theorem extractPrice_oku_trimmed_witness :
    extractPriceFromSelection (priceTable "億5000万円".toList)
        = .ok ((decimalValue "5000".toList : Int) * 10000)
      ∧ extractPriceFromSelection (priceTable "5000万円".toList)
        = .ok ((decimalValue "5000".toList : Int) * 10000) :=
  extractPrice_oku_trimmed (priceTable "億5000万円".toList) (priceTable "5000万円".toList)
    "5000".toList (by decide) (by decide) (by decide) rfl rfl

/-- C17, as stated, fails: on the value text `1億2000万円` the text handed to
`Atoi` is `1億2000` and `extractPriceFromSelection` returns its error, not a
price. -/
theorem extractPrice_inner_oku_counterexample :
    extractPriceFromSelection (priceTable "1億2000万円".toList)
      = .error (.atoi "1億2000".toList) := by
  decide

/-- C17, amended: for non-empty runs `d1` and `d2` of ASCII digits, the value
text `d1`, `億`, `d2`, `万円` makes `extractPriceFromSelection` return the
error of `Atoi` on `d1億d2`, and no price. -/
theorem extractPrice_inner_oku (s : Selection) (d1 d2 : Str)
    (hne1 : d1 ≠ []) (hdig1 : ∀ c ∈ d1, isDigit c = true)
    (hne2 : d2 ≠ []) (hdig2 : ∀ c ∈ d2, isDigit c = true)
    (hs : s.priceText = d1 ++ "億".toList ++ d2 ++ "万円".toList) :
    extractPriceFromSelection s = .error (.atoi (d1 ++ "億".toList ++ d2)) := by
  cases d1 with
  | nil => exact absurd rfl hne1
  | cons x xs =>
    have hx : isDigit x = true := hdig1 x (List.mem_cons_self x xs)
    -- the text between the first digit and the unit
    have hbody : ∀ ys c, (x :: xs) ++ "億".toList ++ d2 = ys ++ [c] → isDigit c = true := by
      intro ys c h
      rcases List.eq_nil_or_concat d2 with h2 | ⟨zs, z, h2⟩
      · exact absurd h2 hne2
      · rw [List.concat_eq_append] at h2
        have hz : c = z :=
          last_of_append ys ((x :: xs) ++ "億".toList ++ zs) c z (by rw [← h, h2]; simp)
        rw [hz]; exact hdig2 z (by rw [h2]; simp)
    have e1 : (x :: xs) ++ "億".toList ++ d2 ++ "万円".toList
        = x :: ((xs ++ "億".toList ++ d2 ++ ['万']) ++ ['円']) := by simp
    have hS : TrimSpace (x :: ((xs ++ "億".toList ++ d2 ++ ['万']) ++ ['円']))
        = x :: ((xs ++ "億".toList ++ d2 ++ ['万']) ++ ['円']) :=
      TrimSpace_of_ends x '円' _ (isDigit_not_space x hx) (by decide)
    have hT : Trim (x :: ((xs ++ "億".toList ++ d2 ++ ['万']) ++ ['円'])) "億".toList
        = x :: ((xs ++ "億".toList ++ d2 ++ ['万']) ++ ['円']) := by
      apply Trim_id
      · intro c cs h; rw [← (List.cons.inj h).1]; exact digits_cut_oku x hx
      · intro ys c h
        have : c = '円' :=
          last_of_append ys (x :: (xs ++ "億".toList ++ d2 ++ ['万'])) c '円' (by rw [← h]; simp)
        rw [this]; decide
    have hps : priceStringOf s = ((x :: xs) ++ "億".toList ++ d2) ++ "万円".toList := by
      rw [priceStringOf, hs, e1, hS, hT]
    have hM : MatchString rePrice (((x :: xs) ++ "億".toList ++ d2) ++ "万円".toList) = true :=
      (MatchString_rePrice _).mpr ⟨_, rfl⟩
    have hT2 : Trim (((x :: xs) ++ "億".toList ++ d2) ++ "万円".toList) "万円".toList
        = (x :: xs) ++ "億".toList ++ d2 := by
      apply Trim_suffix_cut _ _ _ (by simp)
      · intro c cs h
        have : x = c := by simp at h; exact h.1
        rw [← this]; exact digits_cut_manEn x hx
      · intro ys c h; exact digits_cut_manEn c (hbody ys c h)
      · decide
    have hA : Atoi ((x :: xs) ++ "億".toList ++ d2) = .error (.atoi ((x :: xs) ++ "億".toList ++ d2)) := by
      have h1 : x ≠ '-' := isDigit_ne x '-' hx (by decide)
      have h2 : x ≠ '+' := isDigit_ne x '+' hx (by decide)
      have hv : digitsValue ((x :: xs) ++ '億' :: d2) 0 = none :=
        digitsValue_stop (x :: xs) '億' d2 0 hdig1 (by decide)
      have e : (x :: xs) ++ "億".toList ++ d2 = x :: (xs ++ '億' :: d2) := by simp
      rw [e]
      rw [List.cons_append] at hv
      simp only [Atoi, dropSign, h1, h2, or_self, if_false, hv]
    have h0 : s.priceText ≠ [] := by rw [hs]; simp
    rw [extractPrice_unfold, if_neg h0, hps, if_pos hM, hT2, hA]

/-- Witness of the amended C17: `1億2000万円`. -/
theorem extractPrice_inner_oku_witness :
    extractPriceFromSelection (priceTable "1億2000万円".toList)
      = .error (.atoi ("1".toList ++ "億".toList ++ "2000".toList)) :=
  extractPrice_inner_oku (priceTable "1億2000万円".toList) "1".toList "2000".toList
    (by decide) (by decide) (by decide) (by decide) rfl

/-- C20: `extractPriceFromSelection` can succeed with a negative price: the
signed literal of `-5万円` gives -50000, and the digit run of
`999999999999999万円` overflows the product by 10000 to a negative value. -/
theorem extractPrice_negative :
    extractPriceFromSelection (priceTable "-5万円".toList) = .ok (-50000)
      ∧ extractPriceFromSelection (priceTable "999999999999999万円".toList)
        = .ok (-8446744073709561616) := by
  decide

/-! ## The price against its reference -/

theorem contains_oku (c : Char) : "億".toList.contains c = false ↔ c ≠ '億' := by
  simp

theorem contains_manEn (c : Char) : "万円".toList.contains c = false ↔ c ≠ '万' ∧ c ≠ '円' := by
  simp

theorem head?_of_cons (r : Str) (c : Char) (cs : Str) (h : r = c :: cs) : r.head? = some c := by
  rw [h]; rfl

theorem getLast?_of_concat (r : Str) (xs : Str) (c : Char) (h : r = xs ++ [c]) :
    r.getLast? = some c := by
  rw [h]; simp

theorem Trim_oku_of_stripped (t : Str)
    (h1 : (stripLeadingOku t).head? ≠ some '億')
    (h2 : (stripLeadingOku t).getLast? ≠ some '億') :
    Trim t "億".toList = stripLeadingOku t := by
  have hid : Trim (stripLeadingOku t) "億".toList = stripLeadingOku t := by
    apply Trim_id
    · intro c cs h
      rw [contains_oku]
      intro hc
      exact h1 (by rw [head?_of_cons _ c cs h, hc])
    · intro xs c h
      rw [contains_oku]
      intro hc
      exact h2 (by rw [getLast?_of_concat _ xs c h, hc])
  cases t with
  | nil => rfl
  | cons c r =>
    by_cases hc : c = '億'
    · have e : stripLeadingOku (c :: r) = r := by simp [stripLeadingOku, hc]
      rw [e] at hid ⊢
      have hl : trimLeftFunc (fun x => "億".toList.contains x) (c :: r)
          = trimLeftFunc (fun x => "億".toList.contains x) r := by
        simp [trimLeftFunc, hc]
      unfold Trim at hid ⊢
      rw [hl]; exact hid
    · have e : stripLeadingOku (c :: r) = c :: r := by simp [stripLeadingOku, hc]
      rw [e] at hid ⊢
      exact hid

theorem dropUnit_append (r : Str) : dropUnit (r ++ "万円".toList) = r := by
  simp [dropUnit]

theorem Trim_manEn_of_remainder (r : Str)
    (h : r.head? ≠ some '万' ∧ r.head? ≠ some '円'
      ∧ r.getLast? ≠ some '万' ∧ r.getLast? ≠ some '円') :
    Trim (r ++ "万円".toList) "万円".toList = r := by
  by_cases hr : r = []
  · rw [hr]; decide
  · apply Trim_suffix_cut r _ _ hr
    · intro c cs hc
      rw [contains_manEn]
      have := head?_of_cons r c cs hc
      constructor
      · intro h0; exact h.1 (by rw [this, h0])
      · intro h0; exact h.2.1 (by rw [this, h0])
    · intro xs c hc
      rw [contains_manEn]
      have := getLast?_of_concat r xs c hc
      constructor
      · intro h0; exact h.2.2.1 (by rw [this, h0])
      · intro h0; exact h.2.2.2 (by rw [this, h0])
    · decide

/-- C15, as stated, fails: on `万5000万円`, `5000円万円` and `5000万円億` the
code returns the price 50000000 and the reference parser fails. -/
theorem extractPrice_reference_counterexample :
    (extractPriceFromSelection (priceTable "万5000万円".toList)).toOption = some 50000000
      ∧ referencePrice "万5000万円".toList = none
      ∧ (extractPriceFromSelection (priceTable "5000円万円".toList)).toOption = some 50000000
      ∧ referencePrice "5000円万円".toList = none
      ∧ (extractPriceFromSelection (priceTable "5000万円億".toList)).toOption = some 50000000
      ∧ referencePrice "5000万円億".toList = none := by
  decide

/-- C15, amended: `extractPriceFromSelection` returns the price of the
reference parser, and fails when it fails, on every value text that, trimmed of
white space and of one leading `億`, neither starts nor ends with `億` and, when
it ends with `万円`, has a remainder before this suffix that neither starts nor
ends with `万` or `円`. -/
theorem extractPrice_refines_reference (s : Selection) (t : Str)
    (ht : t = stripLeadingOku (TrimSpace s.priceText))
    (h1 : t.head? ≠ some '億') (h2 : t.getLast? ≠ some '億')
    (h3 : "万円".toList <:+ t →
      (dropUnit t).head? ≠ some '万' ∧ (dropUnit t).head? ≠ some '円'
        ∧ (dropUnit t).getLast? ≠ some '万' ∧ (dropUnit t).getLast? ≠ some '円') :
    (extractPriceFromSelection s).toOption = referencePrice s.priceText := by
  have hps : priceStringOf s = t := by
    rw [priceStringOf, ht]
    exact Trim_oku_of_stripped _ (by rw [← ht]; exact h1) (by rw [← ht]; exact h2)
  unfold referencePrice
  simp only [← ht]
  rw [extractPrice_unfold, hps]
  by_cases h0 : s.priceText = []
  · have : t = [] := by rw [ht, h0]; rfl
    rw [if_pos h0, this]
    rfl
  · rw [if_neg h0]
    by_cases hsuf : "万円".toList <:+ t
    · rw [if_pos ((MatchString_rePrice t).mpr hsuf), if_pos hsuf]
      have h3' := h3 hsuf
      obtain ⟨r, hr⟩ := hsuf
      rw [← hr] at h3' ⊢
      rw [dropUnit_append] at h3' ⊢
      rw [Trim_manEn_of_remainder r h3']
      cases Atoi r <;> rfl
    · have hm : ¬ MatchString rePrice t = true := fun h => hsuf ((MatchString_rePrice t).mp h)
      rw [if_neg hm, if_neg hsuf]
      rfl

/-- Witness of the amended C15: `億5000万円`, on which the code and the
reference both give 50000000. -/
theorem extractPrice_refines_reference_witness :
    (extractPriceFromSelection (priceTable "億5000万円".toList)).toOption
        = referencePrice (priceTable "億5000万円".toList).priceText
      ∧ referencePrice "億5000万円".toList = some 50000000 :=
  ⟨extractPrice_refines_reference (priceTable "億5000万円".toList) "5000万円".toList
    (by decide) (by decide) (by decide) (by decide), by decide⟩

/-! ## The empty listing ID -/

theorem matchStar_some_all {ρ : Type} (p : Char → Bool) (k : Str → Option ρ) :
    ∀ (s a : Str) (r : ρ), matchStar p k s = some (a, r) → ∀ c ∈ a, p c = true := by
  intro s
  induction s with
  | nil =>
    intro a r h
    cases hk : k [] with
    | none => simp [matchStar, hk] at h
    | some r0 =>
      simp only [matchStar, hk, Option.map_some', Option.some.injEq, Prod.mk.injEq] at h
      intro c hc; rw [← h.1] at hc; simp at hc
  | cons x xs ih =>
    intro a r h
    have hbase : (k (x :: xs)).map (fun r => (([] : Str), r)) = some (a, r) →
        ∀ c ∈ a, p c = true := by
      intro h
      cases hk : k (x :: xs) with
      | none => simp [hk] at h
      | some r0 =>
        simp only [hk, Option.map_some', Option.some.injEq, Prod.mk.injEq] at h
        intro c hc; rw [← h.1] at hc; simp at hc
    by_cases hx : p x = true
    · rw [matchStar_cons_pos p k x xs hx] at h
      cases hm : matchStar p k xs with
      | none => rw [hm] at h; exact hbase h
      | some ar =>
        obtain ⟨a0, r0⟩ := ar
        rw [hm] at h
        simp only [Option.some.injEq, Prod.mk.injEq] at h
        intro c hc
        rw [← h.1] at hc
        rcases List.mem_cons.mp hc with h1 | h1
        · rw [h1]; exact hx
        · exact ih a0 r0 hm c h1
    · simp only [matchStar, hx, Bool.false_eq_true, if_false] at h
      exact hbase h

theorem matchHere_reID_segment (t : Str) (r : Str × Option Str)
    (h : matchHere reID t = some r) : isSegmentStart t = true := by
  obtain ⟨rest, hrest⟩ := matchHere_reID_head t r h
  have e2 : reID = Item.lit '/' :: Item.lit 'n' :: Item.lit 'c' :: Item.lit '_' ::
      Item.star Cls.digit true :: [Item.lit '/'] := rfl
  rw [hrest, e2, matchHere_lit, matchHere_lit, matchHere_lit, matchHere_lit, matchHere_star] at h
  cases hs : matchStar Cls.digit.test (matchHere [Item.lit '/']) rest with
  | none => simp [hs] at h
  | some ar =>
    obtain ⟨a, r0⟩ := ar
    obtain ⟨u, hu, hk⟩ := matchStar_some_split _ _ rest a r0 hs
    have hall := matchStar_some_all _ _ rest a r0 hs
    have hhead : ∃ post, u = '/' :: post := by
      cases u with
      | nil => simp [matchHere] at hk
      | cons c post =>
        by_cases hc : c = '/'
        · exact ⟨post, by rw [hc]⟩
        · simp [matchHere, hc] at hk
    obtain ⟨post, hpost⟩ := hhead
    have hdw : (a ++ '/' :: post).dropWhile isDigit = '/' :: post := by
      have : ∀ a : Str, (∀ c ∈ a, isDigit c = true) →
          (a ++ '/' :: post).dropWhile isDigit = '/' :: post := by
        intro a
        induction a with
        | nil =>
          intro _
          have h0 : isDigit '/' = false := by decide
          simp [List.dropWhile, h0]
        | cons y ys ih =>
          intro hy
          have h1 := hy y (List.mem_cons_self y ys)
          simp only [List.cons_append, List.dropWhile, h1]
          exact ih fun c hc => hy c (List.mem_cons_of_mem y hc)
      exact this a hall
    rw [hrest, hu, hpost]
    simp only [isSegmentStart, hdw]
    rfl

/-- C18: when `/nc_/` stands in the URL before every segment `/nc_<digits>/`
with digits, `extractIDFromURL` returns the empty string as the ID, with no
error. -/
theorem extractIDFromURL_empty_run (u : URL) (p s : Str)
    (hu : u.str = p ++ "/nc_/".toList ++ s)
    (hfirst : ∀ t ∈ p.tails, t ≠ [] → isSegmentStart (t ++ "/nc_/".toList ++ s) = false) :
    extractIDFromURL u = .ok [] := by
  have hskip : ∀ t : Str, t ≠ [] → t <:+ p →
      matchHere reID (t ++ ("/nc_/".toList ++ s)) = none := by
    intro t ht hs
    cases hm : matchHere reID (t ++ ("/nc_/".toList ++ s)) with
    | none => rfl
    | some r =>
      have h1 := matchHere_reID_segment _ r hm
      have h2 := hfirst t ((List.mem_tails t p).mpr hs) ht
      rw [List.append_assoc, h1] at h2
      exact Bool.noConfusion h2
  have hm := matchHere_reID [] s (by simp)
  have h1 : regexFind reID u.str = some ("/nc_".toList ++ [] ++ "/".toList, some []) := by
    rw [hu, List.append_assoc, regexFind_skip reID _ p hskip]
    apply regexFind_of_matchHere
    simpa using hm
  simp [extractIDFromURL, FindStringSubmatch, h1, index, GoResult.bind]

/-- Witness of C18: `https://suumo.jp/nc_/` gives the empty ID. -/
theorem extractIDFromURL_empty_run_witness :
    extractIDFromURL urlEmptyID = .ok [] :=
  extractIDFromURL_empty_run urlEmptyID "https://suumo.jp".toList [] rfl (by decide)

/-! ## What `ParseFloat` accepts -/

theorem commonPrefixLen_le :
    ∀ (s p : Str), commonPrefixLenIgnoreCase s p ≤ s.length := by
  intro s
  induction s with
  | nil => intro p; simp [commonPrefixLenIgnoreCase]
  | cons c s ih =>
    intro p
    cases p with
    | nil => simp [commonPrefixLenIgnoreCase]
    | cons l p =>
      by_cases h : foldEq c l = true
      · simp only [commonPrefixLenIgnoreCase, h, if_true, List.length_cons]
        have := ih p
        omega
      · simp [commonPrefixLenIgnoreCase, h]

theorem commonPrefixLen_full (x : Char) :
    ∀ (s p : Str), commonPrefixLenIgnoreCase s p = s.length →
      (∀ l ∈ p, foldEq x l = false) → x ∉ s := by
  intro s
  induction s with
  | nil => intro p _ _; simp
  | cons c s ih =>
    intro p h hp
    cases p with
    | nil => simp [commonPrefixLenIgnoreCase] at h
    | cons l p =>
      by_cases hc : foldEq c l = true
      · simp only [commonPrefixLenIgnoreCase, hc, if_true, List.length_cons,
          Nat.add_right_cancel_iff] at h
        have h1 := ih p h fun l' hl' => hp l' (List.mem_cons_of_mem l hl')
        intro hx
        rcases List.mem_cons.mp hx with h2 | h2
        · have := hp l (List.mem_cons_self l p)
          rw [h2, hc] at this
          exact Bool.noConfusion this
        · exact h1 h2
      · simp [commonPrefixLenIgnoreCase, hc] at h

theorem infinityLen_full (x : Char) (s : Str) (h : infinityLen s = s.length)
    (hx : ∀ l ∈ "infinity".toList, foldEq x l = false) : x ∉ s := by
  unfold infinityLen at h
  have hle := commonPrefixLen_le s "infinity".toList
  by_cases hc : 3 < commonPrefixLenIgnoreCase s "infinity".toList
      ∧ commonPrefixLenIgnoreCase s "infinity".toList < 8
  · simp only [hc, and_self, if_true] at h
    omega
  · simp only [hc, if_false] at h
    exact commonPrefixLen_full x s _ h hx

/-- A character that is not a sign and that no letter of `infinity` and `nan`
equals, case ignored, does not occur in a text `special` reads to its
end. -/
theorem special_not_mem (x : Char) (hsign : x ≠ '+' ∧ x ≠ '-')
    (hx : ∀ l ∈ "infinity".toList, foldEq x l = false)
    (hnan : ∀ l ∈ "nan".toList, foldEq x l = false) (s : Str) (f : Float64) (n : Nat)
    (h : special s = some (f, n)) (hn : n = s.length) : x ∉ s := by
  cases s with
  | nil => simp [special] at h
  | cons c r =>
    by_cases hs : c = '+' ∨ c = '-'
    · simp only [special, hs, if_true] at h
      by_cases hi : infinityLen r = 3 ∨ infinityLen r = 8
      · simp only [hi, if_true, Option.some.injEq, Prod.mk.injEq] at h
        have hlen : infinityLen r = r.length := by
          have := h.2; rw [hn] at this; simp at this; omega
        intro hm
        rcases List.mem_cons.mp hm with h1 | h1
        · rcases hs with hs | hs
          · exact hsign.1 (h1.trans hs)
          · exact hsign.2 (h1.trans hs)
        · exact infinityLen_full x r hlen hx h1
      · simp [hi] at h
    · simp only [special, hs, if_false] at h
      by_cases hI : c = 'i' ∨ c = 'I'
      · simp only [hI, if_true] at h
        by_cases hi : infinityLen (c :: r) = 3 ∨ infinityLen (c :: r) = 8
        · simp only [hi, if_true, Option.some.injEq, Prod.mk.injEq] at h
          exact infinityLen_full x (c :: r) (by rw [h.2, hn]) hx
        · simp [hi] at h
      · simp only [hI, if_false] at h
        by_cases hN : c = 'n' ∨ c = 'N'
        · simp only [hN, if_true] at h
          by_cases h3 : commonPrefixLenIgnoreCase (c :: r) "nan".toList = 3
          · simp only [h3, if_true, Option.some.injEq, Prod.mk.injEq] at h
            exact commonPrefixLen_full x (c :: r) _ (by rw [h3, h.2, hn]) hnan
          · rw [if_neg h3] at h; exact Option.noConfusion h
        · simp [hN] at h

theorem scanMant_keeps (hex : Bool) (x : Char)
    (hx : x ≠ '_' ∧ x ≠ '.' ∧ isDigit x = false ∧ isHexLetter x = false) :
    ∀ (s : Str) (st : MantState), x ∈ s → x ∈ (scanMant hex s st).2 := by
  intro s
  induction s with
  | nil => intro st h; simp at h
  | cons c cs ih =>
    intro st h
    have hcs : c ≠ x → x ∈ cs := by
      intro hne
      rcases List.mem_cons.mp h with h1 | h1
      · exact absurd h1.symm hne
      · exact h1
    unfold scanMant
    by_cases h1 : c = '_'
    · rw [if_pos h1]
      exact ih _ (hcs (by rw [h1]; exact fun e => hx.1 e.symm))
    · rw [if_neg h1]
      by_cases h2 : c = '.'
      · rw [if_pos h2]
        by_cases h3 : st.sawdot = true
        · rw [if_pos h3]; exact h
        · rw [if_neg h3]
          exact ih _ (hcs (by rw [h2]; exact fun e => hx.2.1 e.symm))
      · rw [if_neg h2]
        by_cases h3 : isDigit c = true
        · rw [if_pos h3]
          exact ih _ (hcs (by intro e; rw [e, hx.2.2.1] at h3; exact Bool.noConfusion h3))
        · rw [if_neg h3]
          by_cases h4 : (hex && isHexLetter c) = true
          · rw [if_pos h4]
            have h5 : isHexLetter c = true := by
              cases hex <;> simp at h4 ⊢; exact h4
            exact ih _ (hcs (by intro e; rw [e, hx.2.2.2] at h5; exact Bool.noConfusion h5))
          · rw [if_neg h4]; exact h

theorem scanExpDigits_not_mem (x : Char) (hx : x ≠ '_' ∧ isDigit x = false) :
    ∀ (s : Str) (e v : Nat), scanExpDigits s e = some v → x ∉ s := by
  intro s
  induction s with
  | nil => intro _ _ _; simp
  | cons c cs ih =>
    intro e v h
    unfold scanExpDigits at h
    by_cases h1 : c = '_'
    · rw [if_pos h1] at h
      intro hm
      rcases List.mem_cons.mp hm with h2 | h2
      · exact hx.1 (h2.trans h1)
      · exact ih _ _ h h2
    · rw [if_neg h1] at h
      by_cases h3 : isDigit c = true
      · rw [if_pos h3] at h
        intro hm
        rcases List.mem_cons.mp hm with h2 | h2
        · rw [← h2, hx.2] at h3; exact Bool.noConfusion h3
        · exact ih _ _ h h2
      · rw [if_neg h3] at h; exact Option.noConfusion h

theorem scanExp_not_mem (x : Char)
    (hx : x ≠ '_' ∧ isDigit x = false ∧ x ≠ '+' ∧ x ≠ '-') (s : Str) (v : Int)
    (h : scanExp s = some v) : x ∉ s := by
  cases s with
  | nil => simp
  | cons c cs =>
    unfold scanExp at h
    by_cases hs : c = '+' ∨ c = '-'
    · simp only [hs, if_true] at h
      cases cs with
      | nil => simp at h
      | cons d t =>
        by_cases hd : isDigit d = true
        · simp only [hd, if_true] at h
          cases hv : scanExpDigits (d :: t) 0 with
          | none => simp [hv] at h
          | some w =>
            have := scanExpDigits_not_mem x ⟨hx.1, hx.2.1⟩ _ _ _ hv
            intro hm
            rcases List.mem_cons.mp hm with h2 | h2
            · rcases hs with hs | hs
              · exact hx.2.2.1 (h2.trans hs)
              · exact hx.2.2.2 (h2.trans hs)
            · exact this h2
        · simp [hd] at h
    · simp only [hs, if_false] at h
      by_cases hd : isDigit c = true
      · simp only [hd, if_true] at h
        cases hv : scanExpDigits (c :: cs) 0 with
        | none => simp [hv] at h
        | some w => exact scanExpDigits_not_mem x ⟨hx.1, hx.2.1⟩ _ _ _ hv
      · simp [hd] at h

theorem readExponent_not_mem (x : Char)
    (hx : x ≠ '_' ∧ isDigit x = false ∧ x ≠ '+' ∧ x ≠ '-')
    (hl : x ≠ 'e' ∧ x ≠ 'E' ∧ x ≠ 'p' ∧ x ≠ 'P') (hex : Bool) (rest : Str) (v : Int)
    (h : readExponent hex rest = some v) : x ∉ rest := by
  cases rest with
  | nil => simp
  | cons c r =>
    simp only [readExponent] at h
    by_cases hc : (hex = false ∧ (c = 'e' ∨ c = 'E')) ∨ (hex = true ∧ (c = 'p' ∨ c = 'P'))
    · rw [if_pos hc] at h
      have hr := scanExp_not_mem x hx r v h
      intro hm
      rcases List.mem_cons.mp hm with h1 | h1
      · rcases hc with ⟨_, hc | hc⟩ | ⟨_, hc | hc⟩
        · exact hl.1 (h1.trans hc)
        · exact hl.2.1 (h1.trans hc)
        · exact hl.2.2.1 (h1.trans hc)
        · exact hl.2.2.2 (h1.trans hc)
      · exact hr h1
    · rw [if_neg hc] at h; exact Option.noConfusion h

theorem hexPrefix_inv (body : Str) (h : hexPrefix body = true) :
    ∃ x t, body = '0' :: x :: t ∧ (x = 'x' ∨ x = 'X') ∧ body.drop 2 = t := by
  match body, h with
  | [], h => simp [hexPrefix] at h
  | [_], h => simp [hexPrefix] at h
  | [_, _], h => simp [hexPrefix] at h
  | c :: x :: y :: t, h =>
    simp only [hexPrefix, decide_eq_true_eq] at h
    exact ⟨x, y :: t, by rw [h.1], h.2, rfl⟩

/-- A character that is none of the characters of numbers does not occur in
a text `readFloat` accepts. -/
theorem readFloat_not_mem (x : Char)
    (hx : x ≠ '_' ∧ x ≠ '.' ∧ isDigit x = false ∧ isHexLetter x = false)
    (hs : x ≠ '+' ∧ x ≠ '-') (hl : x ≠ 'x' ∧ x ≠ 'X' ∧ x ≠ 'p' ∧ x ≠ 'P')
    (s : Str) (n : FloatSyntax) (h : readFloat s = some n) : x ∉ s := by
  have he : x ≠ 'e' ∧ x ≠ 'E' := by
    constructor <;> intro e <;> rw [e] at hx <;> exact absurd hx.2.2.2 (by decide)
  have h0 : x ≠ '0' := by
    intro e; rw [e] at hx; exact absurd hx.2.2.1 (by decide)
  cases s with
  | nil => simp
  | cons c0 r0 =>
    unfold readFloat at h
    simp only at h
    by_cases hd : (scanMant (hexPrefix (dropSign (c0 :: r0)))
        (if hexPrefix (dropSign (c0 :: r0)) = true then (dropSign (c0 :: r0)).drop 2
          else dropSign (c0 :: r0)) {}).1.sawdigits = false
    · rw [if_pos hd] at h; exact Option.noConfusion h
    · rw [if_neg hd] at h
      cases hexp : readExponent (hexPrefix (dropSign (c0 :: r0)))
          (scanMant (hexPrefix (dropSign (c0 :: r0)))
            (if hexPrefix (dropSign (c0 :: r0)) = true then (dropSign (c0 :: r0)).drop 2
              else dropSign (c0 :: r0)) {}).2 with
      | none => rw [hexp] at h; exact Option.noConfusion h
      | some v =>
        have hrest := readExponent_not_mem x ⟨hx.1, hx.2.2.1, hs.1, hs.2⟩
          ⟨he.1, he.2, hl.2.2.1, hl.2.2.2⟩ _ _ v hexp
        have hdigits : x ∉ (if hexPrefix (dropSign (c0 :: r0)) = true
            then (dropSign (c0 :: r0)).drop 2 else dropSign (c0 :: r0)) :=
          fun hm => hrest (scanMant_keeps _ x hx _ _ hm)
        have hbody : x ∉ dropSign (c0 :: r0) := by
          by_cases hh : hexPrefix (dropSign (c0 :: r0)) = true
          · rw [if_pos hh] at hdigits
            obtain ⟨y, t, hb, hy, ht⟩ := hexPrefix_inv _ hh
            rw [ht] at hdigits
            rw [hb]
            intro hm
            rcases List.mem_cons.mp hm with h1 | h1
            · exact h0 h1
            · rcases List.mem_cons.mp h1 with h2 | h2
              · rcases hy with hy | hy
                · exact hl.1 (h2.trans hy)
                · exact hl.2.1 (h2.trans hy)
              · exact hdigits h2
          · rw [if_neg hh] at hdigits; exact hdigits
        intro hm
        by_cases hsg : c0 = '-' ∨ c0 = '+'
        · simp only [dropSign, hsg, if_true] at hbody
          rcases List.mem_cons.mp hm with h1 | h1
          · rcases hsg with hsg | hsg
            · exact hs.2 (h1.trans hsg)
            · exact hs.1 (h1.trans hsg)
          · exact hbody h1
        · simp only [dropSign, hsg, if_false] at hbody
          exact hbody hm

/-- The error of `ParseFloat` on a text is the `*NumError` for that text. -/
theorem ParseFloat_error (s : Str) (e : GoError) (h : ParseFloat s = .error e) :
    e = .parseFloat s := by
  unfold ParseFloat at h
  cases hsp : special s with
  | some fn =>
    obtain ⟨f, n⟩ := fn
    simp only [hsp] at h
    by_cases hn : n = s.length
    · rw [if_pos hn] at h; exact Except.noConfusion h
    · rw [if_neg hn] at h; exact (Except.error.inj h).symm
  | none =>
    simp only [hsp] at h
    cases hr : readFloat s with
    | none => simp only [hr] at h; exact (Except.error.inj h).symm
    | some n =>
      simp only [hr] at h
      by_cases ho : n.toFloat64.2 = true
      · rw [if_pos ho] at h; exact (Except.error.inj h).symm
      · rw [if_neg ho] at h; exact Except.noConfusion h

/-- The text of a number accepted by `ParseFloat` does not hold the letter `m`. -/
theorem ParseFloat_letter_m (s : Str) (hm : 'm' ∈ s) : ParseFloat s = .error (.parseFloat s) := by
  cases hp : ParseFloat s with
  | error e => rw [ParseFloat_error s e hp]
  | ok f =>
    exfalso
    unfold ParseFloat at hp
    cases hsp : special s with
    | some fn =>
      obtain ⟨g, n⟩ := fn
      simp only [hsp] at hp
      by_cases hn : n = s.length
      · exact special_not_mem 'm' (by decide) (by decide) (by decide) s g n hsp hn hm
      · rw [if_neg hn] at hp; exact Except.noConfusion hp
    | none =>
      simp only [hsp] at hp
      cases hr : readFloat s with
      | none => simp only [hr] at hp; exact Except.noConfusion hp
      | some n =>
        exact readFloat_not_mem 'm' (by decide) (by decide) (by decide) s n hr hm

/-! ## Decimal literals under `ParseFloat` -/

theorem isDigit_props (c : Char) (h : isDigit c = true) :
    c ≠ '_' ∧ c ≠ '.' ∧ c ≠ '+' ∧ c ≠ '-' ∧ c ≠ 'e' ∧ c ≠ 'E' :=
  ⟨isDigit_ne c _ h (by decide), isDigit_ne c _ h (by decide), isDigit_ne c _ h (by decide),
    isDigit_ne c _ h (by decide), isDigit_ne c _ h (by decide), isDigit_ne c _ h (by decide)⟩

theorem scanMant_digit (c : Char) (cs : Str) (st : MantState) (h : isDigit c = true) :
    scanMant false (c :: cs) st = scanMant false cs (st.push 10 (digitVal c)) := by
  have hp := isDigit_props c h
  simp [scanMant, hp.1, hp.2.1, h]

theorem scanMant_dot (cs : Str) (st : MantState) (h : st.sawdot = false) :
    scanMant false ('.' :: cs) st = scanMant false cs { st with sawdot := true } := by
  simp [scanMant, h]

theorem scanMant_exp (c : Char) (cs : Str) (st : MantState) (h : c = 'e' ∨ c = 'E') :
    scanMant false (c :: cs) st = (st, c :: cs) := by
  rcases h with h | h <;> subst h <;> simp [scanMant, isDigit]

theorem literal_body (a : Str) (h : isDecimalLiteral a = true) :
    ∃ c a', a = c :: a' ∧ scanLiteral .signed (dropSign a) = true := by
  cases a with
  | nil => exact absurd rfl (isDecimalLiteral_ne_nil [] h)
  | cons c a' =>
    refine ⟨c, a', rfl, ?_⟩
    unfold isDecimalLiteral at h
    by_cases hs : c = '-' ∨ c = '+'
    · have hd : isDigit c = false := by
        rcases hs with hs | hs <;> rw [hs] <;> decide
      have hs' : c = '+' ∨ c = '-' := hs.symm
      simp only [dropSign, hs, if_true]
      simpa [scanLiteral, LitState.step, hd, hs'] using h
    · have hs' : ¬ (c = '+' ∨ c = '-') := fun e => hs e.symm
      simp only [dropSign, hs, if_false]
      simp only [scanLiteral, LitState.step, hs', if_false] at h ⊢
      exact h

theorem scanMant_literal :
    ∀ (t : Str) (st : LitState) (ms : MantState), MantOK st ms → scanLiteral st t = true →
      (scanMant false t ms).1.sawdigits = true ∧ ExpOK (scanMant false t ms).2 := by
  intro t
  induction t with
  | nil =>
    intro st ms hok h
    cases st <;> simp [scanLiteral, LitState.accepting] at h <;>
      simp [MantOK] at hok <;> simp [scanMant, hok, ExpOK]
  | cons c t ih =>
    intro st ms hok h
    cases hstep : st.step c with
    | none => simp [scanLiteral, hstep] at h
    | some st' =>
      simp only [scanLiteral, hstep] at h
      by_cases hd : isDigit c = true
      · rw [scanMant_digit c t ms hd]
        apply ih st' _ _ h
        cases st <;> simp [MantOK] at hok <;>
          simp [LitState.step, hd] at hstep <;> subst hstep <;>
          simp [MantOK, MantState.push, hok]
      · by_cases hdot : c = '.'
        · subst hdot
          cases st <;> simp [MantOK] at hok <;>
            simp [LitState.step, hd] at hstep
          · subst hstep
            rw [scanMant_dot t ms hok]
            exact ih _ _ (by simp [MantOK]) h
          · subst hstep
            rw [scanMant_dot t ms hok.1]
            exact ih _ _ (by simp [MantOK, hok.2]) h
        · have he : (c = 'e' ∨ c = 'E') ∧ st' = .expStart ∧ ms.sawdigits = true := by
            cases st <;> simp [MantOK] at hok <;>
              simp [LitState.step, hd, hdot] at hstep
            · exact ⟨hstep.1, hstep.2.symm, hok.2⟩
            · exact ⟨hstep.1, hstep.2.symm, hok.2⟩
          rw [scanMant_exp c t ms he.1]
          refine ⟨he.2.2, Or.inr ⟨c, t, rfl, he.1, ?_⟩⟩
          rw [← he.2.1]; exact h

theorem expDigits_all :
    ∀ t : Str, scanLiteral .expDigits t = true → ∀ c ∈ t, isDigit c = true := by
  intro t
  induction t with
  | nil => intro _ c hc; simp at hc
  | cons x t ih =>
    intro h c hc
    by_cases hx : isDigit x = true
    · simp only [scanLiteral, LitState.step, hx, if_true] at h
      rcases List.mem_cons.mp hc with h1 | h1
      · rw [h1]; exact hx
      · exact ih h c h1
    · simp [scanLiteral, LitState.step, hx] at h

theorem scanExpDigits_digits :
    ∀ (t : Str) (n : Nat), (∀ c ∈ t, isDigit c = true) → ∃ e, scanExpDigits t n = some e := by
  intro t
  induction t with
  | nil => intro n _; exact ⟨n, rfl⟩
  | cons x t ih =>
    intro n h
    have hx := h x (List.mem_cons_self x t)
    have hp := isDigit_props x hx
    simp only [scanExpDigits, hp.1, if_false, hx, if_true]
    exact ih _ fun c hc => h c (List.mem_cons_of_mem x hc)

theorem scanExp_digits (c : Char) (t ds : Str) (hds : ds = if c = '+' ∨ c = '-' then t else c :: t)
    (hne : ds ≠ []) (hall : ∀ x ∈ ds, isDigit x = true) : ∃ e, scanExp (c :: t) = some e := by
  cases ds with
  | nil => exact absurd rfl hne
  | cons d r =>
    have hd := hall d (List.mem_cons_self d r)
    obtain ⟨e, he⟩ := scanExpDigits_digits (d :: r) 0 hall
    refine ⟨(if c = '-' then -1 else 1) * (e : Int), ?_⟩
    simp only [scanExp, ← hds, hd, if_true, he]
    rfl

theorem literal_exponent (r : Str) (h : scanLiteral .expStart r = true) :
    ∃ e, scanExp r = some e := by
  cases r with
  | nil => simp [scanLiteral, LitState.accepting] at h
  | cons c t =>
    by_cases hd : isDigit c = true
    · have hp := isDigit_props c hd
      have hs : ¬ (c = '+' ∨ c = '-') := fun e => e.elim hp.2.2.1 hp.2.2.2.1
      simp only [scanLiteral, LitState.step, hd, if_true] at h
      apply scanExp_digits c t (c :: t) (by rw [if_neg hs]) (by simp)
      intro x hx
      rcases List.mem_cons.mp hx with h1 | h1
      · rw [h1]; exact hd
      · exact expDigits_all t h x h1
    · by_cases hs : c = '+' ∨ c = '-'
      · simp only [scanLiteral, LitState.step, hd, Bool.false_eq_true, if_false, hs, if_true] at h
        cases t with
        | nil => simp [scanLiteral, LitState.accepting] at h
        | cons d r =>
          by_cases hdd : isDigit d = true
          · simp only [scanLiteral, LitState.step, hdd, if_true] at h
            apply scanExp_digits c (d :: r) (d :: r) (by rw [if_pos hs]) (by simp)
            intro x hx
            rcases List.mem_cons.mp hx with h1 | h1
            · rw [h1]; exact hdd
            · exact expDigits_all r h x h1
          · simp [scanLiteral, LitState.step, hdd] at h
      · simp [scanLiteral, LitState.step, hd, hs] at h

theorem readExponent_literal (rest : Str) (h : ExpOK rest) :
    ∃ e, readExponent false rest = some e := by
  rcases h with h | ⟨c, r, h, hc, hr⟩
  · rw [h]; exact ⟨0, rfl⟩
  · obtain ⟨e, he⟩ := literal_exponent r hr
    refine ⟨e, ?_⟩
    rw [h]
    simp only [readExponent, true_and, Bool.false_eq_true, false_and, or_false, hc, if_true, he]

theorem literal_chars_nat (c : Char) (h : isLiteralChar c = true) :
    (48 ≤ c.toNat ∧ c.toNat ≤ 57) ∨ c.toNat = 43 ∨ c.toNat = 45 ∨ c.toNat = 46
      ∨ c.toNat = 101 ∨ c.toNat = 69 := by
  simp only [isLiteralChar, isDigit, Bool.or_eq_true, Bool.and_eq_true, decide_eq_true_eq,
    beq_iff_eq] at h
  rcases h with ((((h | h) | h) | h) | h) | h
  · exact Or.inl h
  · right; left; rw [h]; rfl
  · right; right; left; rw [h]; rfl
  · right; right; right; left; rw [h]; rfl
  · right; right; right; right; left; rw [h]; rfl
  · right; right; right; right; right; rw [h]; rfl

theorem literal_char_ne (c x : Char) (h : isLiteralChar c = true)
    (hx : isLiteralChar x = false) : c ≠ x := by
  intro e; rw [e, hx] at h; exact Bool.noConfusion h

theorem literal_not_hex (a : Str) (hchars : ∀ c ∈ a, isLiteralChar c = true) :
    hexPrefix (dropSign a) = false := by
  cases hh : hexPrefix (dropSign a) with
  | false => rfl
  | true =>
    exfalso
    obtain ⟨x, t, hb, hx, _⟩ := hexPrefix_inv _ hh
    have hxin : x ∈ a := by
      have hx1 : x ∈ dropSign a := by rw [hb]; simp
      cases a with
      | nil => simp [dropSign] at hx1
      | cons c r =>
        by_cases hs : c = '-' ∨ c = '+'
        · simp only [dropSign, hs, if_true] at hx1
          exact List.mem_cons_of_mem c hx1
        · simp only [dropSign, hs, if_false] at hx1
          exact hx1
    have := hchars x hxin
    rcases hx with hx | hx <;> rw [hx] at this <;> exact absurd this (by decide)

theorem literal_not_special (a : Str) (h : isDecimalLiteral a = true) : special a = none := by
  have hchars := scanLiteral_chars a LitState.start h
  have hfold : ∀ c ∈ a, foldEq c 'i' = false := by
    intro c hc
    have hn := literal_chars_nat c (hchars c hc)
    have hne : c ≠ 'i' := literal_char_ne c 'i' (hchars c hc) (by decide)
    simp only [foldEq, Bool.or_eq_false_iff, beq_eq_false_iff_ne, ne_eq, hne, not_false_eq_true,
      Bool.and_eq_false_iff, decide_eq_false_iff_not, true_and]
    have : 'i'.toNat = 105 := rfl
    omega
  cases a with
  | nil => rfl
  | cons c r =>
    have hc := hchars c (List.mem_cons_self c r)
    have hI : ¬ (c = 'i' ∨ c = 'I') := fun e =>
      e.elim (literal_char_ne c _ hc (by decide)) (literal_char_ne c _ hc (by decide))
    have hN : ¬ (c = 'n' ∨ c = 'N') := fun e =>
      e.elim (literal_char_ne c _ hc (by decide)) (literal_char_ne c _ hc (by decide))
    by_cases hs : c = '+' ∨ c = '-'
    · have hr : infinityLen r = 0 := by
        obtain ⟨_, _, _, hbody⟩ := literal_body (c :: r) h
        have hs' : c = '-' ∨ c = '+' := hs.symm
        simp only [dropSign, hs', if_true] at hbody
        cases r with
        | nil => rfl
        | cons d t =>
          have := hfold d (by simp)
          simp [infinityLen, commonPrefixLenIgnoreCase, this]
      simp [special, hs, hr]
    · simp [special, hs, hI, hN]

theorem literal_no_underscore (a : Str) (h : isDecimalLiteral a = true) :
    a.contains '_' = false := by
  have hchars := scanLiteral_chars a LitState.start h
  cases hc : a.contains '_' with
  | false => rfl
  | true =>
    have : '_' ∈ a := by simpa using hc
    exact absurd (hchars '_' this) (by decide)

/-- A decimal literal is read by `readFloat` as a number in base 10. -/
theorem literal_readFloat (a : Str) (h : isDecimalLiteral a = true) :
    ∃ n : FloatSyntax, readFloat a = some n ∧ n.hex = false := by
  have hchars := scanLiteral_chars a LitState.start h
  obtain ⟨c, a', ha, hbody⟩ := literal_body a h
  have hhex := literal_not_hex a hchars
  have hm := scanMant_literal (dropSign a) LitState.signed {} rfl hbody
  obtain ⟨e, he⟩ := readExponent_literal _ hm.2
  have hu := literal_no_underscore a h
  refine ⟨{ neg := a.head? == some '-', hex := false,
            mant := (scanMant false (dropSign a) {}).1.mant,
            frac := (scanMant false (dropSign a) {}).1.frac, exp := e }, ?_, rfl⟩
  rw [ha] at hhex hm he hu ⊢
  simp only [readFloat, hhex, Bool.false_eq_true, if_false, hm.1, he, hu, Bool.false_and,
    Bool.true_eq_false]

/-- The result of `ParseFloat` on a decimal literal: the rounded value of the
number read, or the error when it overflows. -/
theorem literal_ParseFloat (a : Str) (h : isDecimalLiteral a = true) :
    ∃ n : FloatSyntax, readFloat a = some n ∧ n.hex = false
      ∧ ParseFloat a = if n.toFloat64.2 then .error (.parseFloat a) else .ok n.toFloat64.1 := by
  obtain ⟨n, hn, hh⟩ := literal_readFloat a h
  refine ⟨n, hn, hh, ?_⟩
  unfold ParseFloat
  rw [literal_not_special a h]
  simp only [hn]

/-! ## The value of an area -/

set_option exponentiation.threshold 2000 in
set_option maxRecDepth 100000 in
/-- C7, as stated, fails: `1e400` is a decimal number literal, and on the area
text `1e400m2` the land-area and building-area extractors return the range
error of `ParseFloat`, not a value. -/
theorem extractArea_range_counterexample :
    isDecimalLiteral "1e400".toList = true
      ∧ extractLandAreaFromSelection sampleEnv (areaTableOf "1e400m2".toList)
        = .error (.parseFloat "1e400".toList)
      ∧ extractBuildingAreaFromSelection sampleEnv (areaTableOf "1e400m2".toList)
        = .error (.parseFloat "1e400".toList) := by
  decide

/-- C7, amended: for an area text `a ++ "m2" ++ b` with `a` a decimal number
literal and `b` free of `m2` and of newlines, the pattern captures exactly `a`,
`a` is read as a number in base 10, and the land-area and building-area
extractors return, whatever `b`, the `float64` nearest to that number, or the
range error of `ParseFloat` when the number overflows `float64`. -/
theorem extractArea_capture (env : Env Float64) (henv : env.ParseFloat = ParseFloat)
    (s : Selection) (a b : Str)
    (ha : isDecimalLiteral a = true) (hb1 : ∀ c ∈ b, c ≠ '\n')
    (hb2 : ¬ "m2".toList <:+: b) :
    (FindStringSubmatch reArea (TrimSpace (a ++ "m2".toList ++ b))).get? 1 = some a
      ∧ ∃ n : FloatSyntax, readFloat a = some n ∧ n.hex = false
        ∧ (s.landAreaText = a ++ "m2".toList ++ b →
            extractLandAreaFromSelection env s
              = if n.toFloat64.2 then .error (.parseFloat a) else .ok n.toFloat64.1)
        ∧ (s.buildingAreaText = a ++ "m2".toList ++ b →
            extractBuildingAreaFromSelection env s
              = if n.toFloat64.2 then .error (.parseFloat a) else .ok n.toFloat64.1) := by
  have hcap := areaCapture a b ha hb1 hb2
  have hne : a ++ "m2".toList ++ b ≠ [] := by
    intro h
    exact isDecimalLiteral_ne_nil a ha (List.append_eq_nil.mp (List.append_eq_nil.mp h).1).1
  obtain ⟨n, hn, hh, hp⟩ := literal_ParseFloat a ha
  have hres : GoResult.ofExcept (env.ParseFloat a)
      = if n.toFloat64.2 then .error (.parseFloat a) else .ok n.toFloat64.1 := by
    rw [henv, hp]
    cases n.toFloat64.2 <;> rfl
  refine ⟨hcap, n, hn, hh, ?_, ?_⟩
  · intro ht
    rw [extractLandArea_unfold, ht, if_neg hne, hcap]
    exact hres
  · intro ht
    rw [extractBuildingArea_unfold, ht, if_neg hne, hcap]
    exact hres

/-- Witness of the amended C7: in `123.45m2以上` the text `123.45` is captured
and read as 12345 with two digits after the point, and both extractors return
the `float64` nearest to it, 8687021468732621 times 2 to the power -46. -/
theorem extractArea_capture_witness :
    (FindStringSubmatch reArea (TrimSpace ("123.45".toList ++ "m2".toList ++ "以上".toList))).get? 1
        = some "123.45".toList
      ∧ readFloat "123.45".toList
        = some { neg := false, hex := false, mant := 12345, frac := 2, exp := 0 }
      ∧ extractLandAreaFromSelection sampleEnv areaTable
        = .ok (.finite false 8687021468732621 (-46))
      ∧ extractBuildingAreaFromSelection sampleEnv areaTable
        = .ok (.finite false 8687021468732621 (-46)) := by
  obtain ⟨hc, n, hn, _, hl, hb⟩ := extractArea_capture sampleEnv rfl areaTable "123.45".toList
    "以上".toList (by decide) (by decide) (by decide)
  have e : readFloat "123.45".toList
      = some { neg := false, hex := false, mant := 12345, frac := 2, exp := 0 } := by decide
  have hn2 : n = { neg := false, hex := false, mant := 12345, frac := 2, exp := 0 } := by
    rw [e] at hn; exact (Option.some.inj hn).symm
  subst hn2
  exact ⟨hc, e, (hl rfl).trans (by decide), (hb rfl).trans (by decide)⟩

/-! ## Several unit markers in an area -/

/-- C19: on an area text of one line, `x`, `m2`, `b` with `m2` inside `x` and
not inside `b`, the pattern captures `x`, all the text before the last `m2`,
and the land-area and building-area extractors return the error of
`ParseFloat` on `x`, which holds the letter `m`, not the first area. -/
theorem extractArea_greedy (env : Env Float64) (henv : env.ParseFloat = ParseFloat)
    (s : Selection) (x b : Str)
    (hx : ∀ c ∈ x, c ≠ '\n') (hb : ∀ c ∈ b, c ≠ '\n')
    (hx2 : "m2".toList <:+: x) (hb2 : ¬ "m2".toList <:+: b) :
    (FindStringSubmatch reArea (x ++ "m2".toList ++ b)).get? 1 = some x
      ∧ (TrimSpace s.landAreaText = x ++ "m2".toList ++ b →
          extractLandAreaFromSelection env s = .error (.parseFloat x))
      ∧ (TrimSpace s.buildingAreaText = x ++ "m2".toList ++ b →
          extractBuildingAreaFromSelection env s = .error (.parseFloat x)) := by
  have hcap : (FindStringSubmatch reArea (x ++ "m2".toList ++ b)).get? 1 = some x := by
    unfold FindStringSubmatch
    rw [regexFind_of_matchHere _ _ _ (matchHere_reArea x b hx hb hb2)]
    rfl
  have hm : 'm' ∈ x := by
    obtain ⟨pre, post, h⟩ := hx2
    rw [← h]; simp
  have hres : GoResult.ofExcept (env.ParseFloat x) = .error (.parseFloat x) := by
    rw [henv, ParseFloat_letter_m x hm]; rfl
  have hne : ∀ t : Str, TrimSpace t = x ++ "m2".toList ++ b → t ≠ [] := by
    intro t ht h0
    rw [h0] at ht
    have : x ++ "m2".toList ++ b = [] := ht.symm
    simp at this
  refine ⟨hcap, ?_, ?_⟩
  · intro ht
    rw [extractLandArea_unfold, if_neg (hne _ ht), ht, hcap]
    exact hres
  · intro ht
    rw [extractBuildingArea_unfold, if_neg (hne _ ht), ht, hcap]
    exact hres

/-- Witness of C19: `100m2・120.5m2` is captured up to the second `m2` and
rejected as a number. -/
theorem extractArea_greedy_witness :
    (FindStringSubmatch reArea ("100m2・120.5".toList ++ "m2".toList ++ [])).get? 1
        = some "100m2・120.5".toList
      ∧ extractLandAreaFromSelection sampleEnv (areaTableOf "100m2・120.5m2".toList)
        = .error (.parseFloat "100m2・120.5".toList)
      ∧ extractBuildingAreaFromSelection sampleEnv (areaTableOf "100m2・120.5m2".toList)
        = .error (.parseFloat "100m2・120.5".toList) :=
  have h := extractArea_greedy sampleEnv rfl (areaTableOf "100m2・120.5m2".toList)
    "100m2・120.5".toList [] (by decide) (by decide) (by decide) (by decide)
  ⟨h.1, h.2.1 (by decide), h.2.2 (by decide)⟩

end Sumoson
